import Mathlib

/-!
Verification development for the document template mining engine
(`template_extractor.py`, `style_profile_analyzer.py`).

Modelling conventions:
* Text is a list of Unicode codepoints (`List Nat`); `strCodes` converts a
  Lean string literal into this representation.
* Python floats (thresholds, rates) are modelled as exact rationals; `int(x)`
  on a nonnegative product is truncation toward zero (`truncQ`).
* The short content hashes (`sha1(...)[:12]`, `md5(...)`) are modelled as the
  identity on the hashed text: a fingerprint is the pair of the style name and
  the normalized text it hashes.  The programs use the hashes only as stable
  identity keys, which the identity realises collision-free.
* `str.lower` is modelled codepoint-wise on the ASCII and German letter range,
  `str.strip` / regex `\s` on the whitespace codepoints occurring in this
  domain, and regex `\w` on ASCII word characters plus German letters.
-/

namespace GutachtenAssist

/-- Text as a list of Unicode codepoints. -/
abbrev Text := List Nat

/-- Codepoints of a string literal. -/
def strCodes (s : String) : Text := s.data.map Char.toNat

/-- Python whitespace (`str.strip`, regex `\s`), modelled on the codepoints
occurring in this domain: space, tab, LF, VT, FF, CR, NEL, NBSP, LS, PS. -/
def isSpace (n : Nat) : Bool :=
  n == 32 || n == 9 || n == 10 || n == 11 || n == 12 || n == 13 ||
  n == 133 || n == 160 || n == 8232 || n == 8233

/-- Python `str.lower`, modelled codepoint-wise on ASCII letters and the
German letters Ä/Ö/Ü. -/
def lowerChar (n : Nat) : Nat :=
  if 65 ≤ n ∧ n ≤ 90 then n + 32
  else if n = 196 then 228
  else if n = 214 then 246
  else if n = 220 then 252
  else n

/-- Python `str.upper` on the same range (used to model `re.IGNORECASE`). -/
def upperChar (n : Nat) : Nat :=
  if 97 ≤ n ∧ n ≤ 122 then n - 32
  else if n = 228 then 196
  else if n = 246 then 214
  else if n = 252 then 220
  else n

/-- Regex `\w`, modelled as ASCII alphanumerics, underscore and the German
letters ÄÖÜäöüß. -/
def isWordChar (n : Nat) : Bool :=
  (48 ≤ n && n ≤ 57) || (65 ≤ n && n ≤ 90) || (97 ≤ n && n ≤ 122) ||
  n == 95 || n == 196 || n == 214 || n == 220 || n == 223 ||
  n == 228 || n == 246 || n == 252

/-- Regex `\d` (ASCII digits). -/
def isDigitC (n : Nat) : Bool := 48 ≤ n && n ≤ 57

/-- Drop leading whitespace (left part of `str.strip`). -/
def stripLeft (t : Text) : Text := t.dropWhile (fun c => isSpace c)

/-- Python `str.strip()`: drop leading and trailing whitespace. -/
def pyStrip (t : Text) : Text :=
  ((stripLeft t).reverse.dropWhile (fun c => isSpace c)).reverse

/-- Model of `re.sub(r'\s+', ' ', ...)`: each maximal run of whitespace
codepoints is replaced by a single space. -/
def collapseWS : Text → Text
  | [] => []
  | c :: cs =>
    if isSpace c then
      match cs with
      | [] => [32]
      | d :: _ => if isSpace d then collapseWS cs else 32 :: collapseWS cs
    else c :: collapseWS cs

/-- Model of `re.sub(r'[""„]', '"', ...)` from `normalize_basic`: the class
holds the ASCII double quote (34) and U+201E (8222); both become 34. -/
def unifyQuotes (t : Text) : Text :=
  t.map (fun c => if c = 34 ∨ c = 8222 then 34 else c)

/-- Model of `re.sub(r'[''‚]', "'", ...)`: by Python adjacent-string-literal
concatenation the raw pattern is `[‚]`, so only U+201A (8218) is replaced by
the ASCII apostrophe (39). -/
def unifyApostrophes (t : Text) : Text :=
  t.map (fun c => if c = 8218 then 39 else c)

/-- Model of `re.sub(r'[–—]', '-', ...)`: U+2013 (8211) and U+2014 (8212)
become the ASCII hyphen (45). -/
def unifyDashes (t : Text) : Text :=
  t.map (fun c => if c = 8211 ∨ c = 8212 then 45 else c)

/-- `normalize_basic` from `template_extractor.py`: lowercase, trim, collapse
whitespace, unify quotes, apostrophes and dashes — in that order. -/
def normalize_basic (t : Text) : Text :=
  unifyDashes (unifyApostrophes (unifyQuotes (collapseWS (pyStrip (t.map lowerChar)))))

/-! Support lemmas for the idempotence of `normalize_basic`. -/

/-- The head of a text, if present, is not whitespace. -/
def headNotSpace (t : Text) : Prop := ∀ c, t.head? = some c → isSpace c = false

/-- The last codepoint of a text, if present, is not whitespace. -/
def lastNotSpace (t : Text) : Prop := ∀ c, t.getLast? = some c → isSpace c = false

/-- Whitespace codepoints never occur adjacently. -/
def spacesSingle (t : Text) : Prop :=
  List.Chain' (fun a b => isSpace a = true → isSpace b = false) t

/-- Every whitespace codepoint is the plain space 32. -/
def spaces32 (t : Text) : Prop := ∀ c ∈ t, isSpace c = true → c = 32

/-- Invariant satisfied by the output of `normalize_basic`: no leading,
trailing or doubled whitespace, all whitespace is the plain space, every
codepoint is fixed under lowercasing, and none of the replaced quote,
apostrophe or dash codepoints remain. -/
def basicClean (t : Text) : Prop :=
  headNotSpace t ∧ lastNotSpace t ∧ spacesSingle t ∧ spaces32 t ∧
  (∀ c ∈ t, lowerChar c = c) ∧
  (∀ c ∈ t, c ≠ 8222 ∧ c ≠ 8218 ∧ c ≠ 8211 ∧ c ≠ 8212)

/-!
Regex engine.

The Python patterns used by this程序 all have a restricted shape: sequences of
character classes with bounded or starred repetition, literal words,
alternations of such sequences, and word boundaries at the edges.  A matcher
is modelled as a function from the text at the current position to the list of
possible match lengths; `re.search` tries every start position; `re.sub`
replaces the leftmost matches taking the longest length at a position (for
the greedy patterns used here this coincides with Python backtracking
matching).  `re.IGNORECASE` is modelled by case-folding classes and literals.
-/

/-- A matcher: possible match lengths of an expression at the current
position of the text. -/
abbrev Rex := Text → List Nat

/-- Matches the empty string. -/
def epsR : Rex := fun _ => [0]

/-- Matches one codepoint satisfying the class predicate. -/
def chrP (p : Nat → Bool) : Rex := fun s =>
  match s with
  | c :: _ => if p c then [1] else []
  | [] => []

/-- Concatenation of two expressions. -/
def seqR (a b : Rex) : Rex := fun s =>
  (a s).flatMap (fun n => (b (s.drop n)).map (fun m => n + m))

/-- Concatenation of a list of expressions. -/
def seqs (l : List Rex) : Rex := l.foldr seqR epsR

/-- Alternation of two expressions. -/
def altR (a b : Rex) : Rex := fun s => a s ++ b s

/-- Alternation of a list of expressions. -/
def alts (l : List Rex) : Rex := fun s => l.flatMap (fun r => r s)

/-- Regex `X?`. -/
def optR (a : Rex) : Rex := altR a epsR

/-- Length of the maximal leading run satisfying the class predicate. -/
def countLeading (p : Nat → Bool) (s : Text) : Nat := (s.takeWhile p).length

/-- Regex `X{m,n}` for a character class `X`. -/
def repP (p : Nat → Bool) (m n : Nat) : Rex := fun s =>
  let k := min n (countLeading p s)
  List.range' m (k + 1 - m)

/-- Regex `X*` for a character class `X`. -/
def manyP (p : Nat → Bool) : Rex := fun s => List.range (countLeading p s + 1)

/-- Regex `X+` for a character class `X`. -/
def many1P (p : Nat → Bool) : Rex := fun s => List.range' 1 (countLeading p s)

/-- Case-insensitive version of a character class (`re.IGNORECASE`). -/
def icP (p : Nat → Bool) : Nat → Bool := fun c =>
  p c || p (lowerChar c) || p (upperChar c)

/-- A literal codepoint. -/
def litc (c : Nat) : Rex := chrP (fun d => d == c)

/-- A literal word under `re.IGNORECASE`. -/
def litIC (w : Text) : Rex :=
  seqs (w.map (fun ch => chrP (fun d => lowerChar d == lowerChar ch)))

/-- One top-level alternative of a pattern: an optional leading word
boundary, a body expression and an optional trailing word boundary. -/
structure PatAlt where
  lb : Bool
  body : Rex
  tb : Bool

/-- A pattern: list of top-level alternatives. -/
abbrev Pattern := List PatAlt

/-- Word codepoint test on an optional codepoint (out of range counts as
non-word). -/
def isWordO : Option Nat → Bool
  | some c => isWordChar c
  | none => false

/-- Regex `\b` between two optional codepoints. -/
def boundaryOk (a b : Option Nat) : Bool := isWordO a != isWordO b

/-- Match lengths of one alternative at the current position, given the
codepoint just before this position. -/
def altLensAt (alt : PatAlt) (prev : Option Nat) (s : Text) : List Nat :=
  if alt.lb && !boundaryOk prev s.head? then []
  else (alt.body s).filter (fun len =>
    !alt.tb || boundaryOk (if len == 0 then prev else s[len - 1]?) s[len]?)

/-- Match lengths of a pattern at the current position. -/
def patLensAt (p : Pattern) (prev : Option Nat) (s : Text) : List Nat :=
  p.flatMap (fun alt => altLensAt alt prev s)

/-- Scan for a match from the current position onward (`re.search`). -/
def searchFrom (p : Pattern) : Option Nat → Text → Bool
  | prev, [] => !(patLensAt p prev []).isEmpty
  | prev, c :: cs => !(patLensAt p prev (c :: cs)).isEmpty || searchFrom p (some c) cs

/-- Model of `re.search(pattern, s)` as a boolean test. -/
def reSearch (p : Pattern) (s : Text) : Bool := searchFrom p none s

/-- Substitution scan: at each position replace the longest match (the
patterns used here never match the empty string, and for them
leftmost-longest agrees with Python leftmost-greedy matching).  The fuel
argument, initialised to the text length, only makes the recursion
structural; at least one codepoint is consumed per step, so it never runs
out before the text does. -/
def subFrom (p : Pattern) (repl : Text) : Nat → Option Nat → Text → Text
  | _, _, [] => []
  | 0, _, s => s
  | fuel + 1, prev, c :: cs =>
    match ((patLensAt p prev (c :: cs)).filter (fun len => len != 0)).max? with
    | some len => repl ++ subFrom p repl fuel ((c :: cs)[len - 1]?) (cs.drop (len - 1))
    | none => c :: subFrom p repl fuel (some c) cs

/-- Model of `re.sub(pattern, repl, s)`. -/
def reSub (p : Pattern) (repl : Text) (s : Text) : Text := subFrom p repl s.length none s

/-! Character classes used by the patterns. -/

/-- Class `[:\s]`. -/
def clsColonSpace (n : Nat) : Bool := n == 58 || isSpace n

/-- Class of word chars, dash and slash (written `[\w` dash `/]` in the source). -/
def clsWordDashSlash (n : Nat) : Bool := isWordChar n || n == 45 || n == 47

/-- Class `[A-Z]`. -/
def clsUpperAZ (n : Nat) : Bool := 65 ≤ n && n ≤ 90

/-- Class `[A-ZÄÖÜ]`. -/
def clsUpperGerman (n : Nat) : Bool := clsUpperAZ n || n == 196 || n == 214 || n == 220

/-- Class `[a-zäöüß]`. -/
def clsLowerGerman (n : Nat) : Bool :=
  (97 ≤ n && n ≤ 122) || n == 228 || n == 246 || n == 252 || n == 223

/-- German month names (alternation in the date patterns). -/
def months : List String :=
  ["Januar", "Februar", "März", "April", "Mai", "Juni", "Juli", "August",
   "September", "Oktober", "November", "Dezember"]

/-- Alternation of the month-name literals. -/
def monthAlt : Rex := alts (months.map (fun m => litIC (strCodes m)))

/-! The `DATE_PATTERNS` of `template_extractor.py`. -/

/-- Pattern `\b\d{1,2}\.\d{1,2}\.\d{2,4}\b`. -/
def datePat1 : Pattern :=
  [⟨true, seqs [repP isDigitC 1 2, litc 46, repP isDigitC 1 2, litc 46,
    repP isDigitC 2 4], true⟩]

/-- Pattern `\b\d{4}-\d{2}-\d{2}\b`. -/
def datePat2 : Pattern :=
  [⟨true, seqs [repP isDigitC 4 4, litc 45, repP isDigitC 2 2, litc 45,
    repP isDigitC 2 2], true⟩]

/-- Pattern `\b\d{1,2}\.\s*(?:Januar|...|Dezember)\s*\d{2,4}\b`. -/
def datePat3 : Pattern :=
  [⟨true, seqs [repP isDigitC 1 2, litc 46, manyP isSpace, monthAlt,
    manyP isSpace, repP isDigitC 2 4], true⟩]

/-- Pattern `\b(?:Januar|...|Dezember)\s*\d{2,4}\b`. -/
def datePat4 : Pattern :=
  [⟨true, seqs [monthAlt, manyP isSpace, repP isDigitC 2 4], true⟩]

/-- The ordered `DATE_PATTERNS` list. -/
def DATE_PATTERNS : List Pattern := [datePat1, datePat2, datePat3, datePat4]

/-! The `ID_PATTERNS` of `template_extractor.py`. -/

/-- Pattern `\b[A-Z]{1,3}\s*\d{6,12}\b`. -/
def idPat1 : Pattern :=
  [⟨true, seqs [repP (icP clsUpperAZ) 1 3, manyP isSpace, repP isDigitC 6 12], true⟩]

/-- Pattern: `Aktenzeichen` then `[:\s]*` then one or more word, dash or slash chars, with word boundaries at both ends. -/
def idPat2 : Pattern :=
  [⟨true, seqs [litIC (strCodes "Aktenzeichen"), manyP clsColonSpace,
    many1P clsWordDashSlash], true⟩]

/-- Pattern: `Az`, optional dot, `[:\s]*`, then one or more word, dash or slash chars, with word boundaries at both ends. -/
def idPat3 : Pattern :=
  [⟨true, seqs [litIC (strCodes "Az"), optR (litc 46), manyP clsColonSpace,
    many1P clsWordDashSlash], true⟩]

/-- Pattern: `Versicherungsn`, optional `r`, optional dot, `[:\s]*`, then one or more word, dash or slash chars, with word boundaries at both ends. -/
def idPat4 : Pattern :=
  [⟨true, seqs [litIC (strCodes "Versicherungsn"), optR (litIC (strCodes "r")),
    optR (litc 46), manyP clsColonSpace, many1P clsWordDashSlash], true⟩]

/-- Pattern: `Vers`, optional dot, `\s*`, `Nr`, optional dot, `[:\s]*`, then one or more word, dash or slash chars, with word boundaries at both ends. -/
def idPat5 : Pattern :=
  [⟨true, seqs [litIC (strCodes "Vers"), optR (litc 46), manyP isSpace,
    litIC (strCodes "Nr"), optR (litc 46), manyP clsColonSpace,
    many1P clsWordDashSlash], true⟩]

/-- The ordered `ID_PATTERNS` list. -/
def ID_PATTERNS : List Pattern := [idPat1, idPat2, idPat3, idPat4, idPat5]

/-! The `NAME_PATTERNS` of `template_extractor.py`. -/

/-- Pattern `\b(?:Herr|Frau|Hr\.|Fr\.)\s+[A-ZÄÖÜ][a-zäöüß]+(?:\s+[A-ZÄÖÜ][a-zäöüß]+)?`. -/
def namePat1 : Pattern :=
  [⟨true, seqs [alts [litIC (strCodes "Herr"), litIC (strCodes "Frau"),
      seqs [litIC (strCodes "Hr"), litc 46], seqs [litIC (strCodes "Fr"), litc 46]],
    many1P isSpace, chrP (icP clsUpperGerman), many1P (icP clsLowerGerman),
    optR (seqs [many1P isSpace, chrP (icP clsUpperGerman),
      many1P (icP clsLowerGerman)])], false⟩]

/-- Pattern `\bgeb\.\s*\d{1,2}\.\d{1,2}\.\d{2,4}`. -/
def namePat2 : Pattern :=
  [⟨true, seqs [litIC (strCodes "geb"), litc 46, manyP isSpace,
    repP isDigitC 1 2, litc 46, repP isDigitC 1 2, litc 46,
    repP isDigitC 2 4], false⟩]

/-- Pattern `\bgeboren\s+(?:am\s+)?\d{1,2}\.\d{1,2}\.\d{2,4}`. -/
def namePat3 : Pattern :=
  [⟨true, seqs [litIC (strCodes "geboren"), many1P isSpace,
    optR (seqs [litIC (strCodes "am"), many1P isSpace]),
    repP isDigitC 1 2, litc 46, repP isDigitC 1 2, litc 46,
    repP isDigitC 2 4], false⟩]

/-- The ordered `NAME_PATTERNS` list. -/
def NAME_PATTERNS : List Pattern := [namePat1, namePat2, namePat3]

/-- `normalize_no_dates`: replace dates with the `<DATE>` placeholder. -/
def normalize_no_dates (t : Text) : Text :=
  DATE_PATTERNS.foldl (fun acc p => reSub p (strCodes "<DATE>") acc) t

/-- `normalize_no_ids`: replace reference numbers with the `<ID>` placeholder. -/
def normalize_no_ids (t : Text) : Text :=
  ID_PATTERNS.foldl (fun acc p => reSub p (strCodes "<ID>") acc) t

/-- `normalize_no_names`: replace clear name patterns with the `<NAME>`
placeholder. -/
def normalize_no_names (t : Text) : Text :=
  NAME_PATTERNS.foldl (fun acc p => reSub p (strCodes "<NAME>") acc) t

/-!
Configuration (`CONFIG` in `template_extractor.py`) and Python numerics.
-/

/-- Exact rational multiplication, written via `mkRat` so that it evaluates
by kernel reduction (`Rat.mul` is `@[irreducible]`); equal to `*` by
`mulQ_eq`. -/
def mulQ (a b : ℚ) : ℚ := mkRat (a.num * b.num) (a.den * b.den)

/-- Exact rational subtraction, written via `mkRat`; equal to `-` by
`subQ_eq`. -/
def subQ (a b : ℚ) : ℚ := mkRat (a.num * b.den - b.num * a.den) (a.den * b.den)

/-- Exact division of two naturals as a rational (models Python float
division of integer counts; total, 0 on zero denominator, which is
unreachable in the pipeline).  Equal to `/` by `divNatQ_eq`. -/
def divNatQ (a b : Nat) : ℚ := mkRat a b

/-- Python `int(q)` on a rational: truncation toward zero (the floor for
nonnegative values, the ceiling — written as `-⌊-q⌋` — for negative ones).
`Rat.floor` is used directly because it evaluates by kernel reduction; it is
definitionally the `Int.floor` of `ℚ`. -/
def truncQ (q : ℚ) : ℤ := if 0 ≤ q then Rat.floor q else -Rat.floor (-q)

/-- `CONFIG["boilerplate_threshold"] = 0.85`. -/
def boilerplate_threshold : ℚ := mkRat 85 100

/-- `CONFIG["min_text_length"] = 3`. -/
def min_text_length : Nat := 3

/-- `CONFIG["anchor_similarity_threshold"] = 0.88`. -/
def anchor_similarity_threshold : ℚ := mkRat 88 100

/-- `CONFIG["ngram_sizes"] = [2, 3, 4, 5]`. -/
def ngram_sizes : List Nat := [2, 3, 4, 5]

/-!
Phase 0/1: paragraph records, normalization layers and fingerprints.
-/

/-- A paragraph fingerprint `f"{style}:{sha1(norm_no_ids)[:12]}"`, with the
hash modelled as the identity on the hashed normalized text. -/
abbrev Fingerprint := String × Text

/-- The fields of a parsed paragraph record that the phases under study
read: raw text, style name and the list flag. -/
structure RawPara where
  text : Text
  style : String
  is_list : Bool
deriving DecidableEq

/-- A paragraph record after `add_normalizations`: the four layered
normalized variants and the fingerprint. -/
structure NormPara where
  text : Text
  style : String
  is_list : Bool
  norm_basic : Text
  norm_no_dates : Text
  norm_no_ids : Text
  norm_full : Text
  fingerprint : Fingerprint
deriving DecidableEq

/-- A parsed document profile before normalization (the `parse_docx_to_profile`
output restricted to the fields the later phases read). -/
structure RawProfile where
  paragraphs : List RawPara
  headers : List Text
  footers : List Text
deriving DecidableEq

/-- A document profile after `add_normalizations`. -/
structure DocProfile where
  paragraphs : List NormPara
  headers : List Text
  footers : List Text
deriving DecidableEq

/-- Normalization of a single paragraph record inside `add_normalizations`:
layered variants, with the fingerprint computed from the `no_ids` layer. -/
def normalizePara (p : RawPara) : NormPara :=
  let nb := normalize_basic p.text
  let nd := normalize_no_dates nb
  let ni := normalize_no_ids nd
  let nn := normalize_no_names ni
  { text := p.text, style := p.style, is_list := p.is_list,
    norm_basic := nb, norm_no_dates := nd, norm_no_ids := ni, norm_full := nn,
    fingerprint := (p.style, ni) }

/-- `add_normalizations`: every paragraph of the profile — including those
with empty text — receives its normalized variants and fingerprint. -/
def add_normalizations (pr : RawProfile) : DocProfile :=
  { paragraphs := pr.paragraphs.map normalizePara,
    headers := pr.headers, footers := pr.footers }

/-!
Phase 2A: `compute_fingerprint_counts`.  Python dicts with default entries
are modelled as insertion-ordered association lists.
-/

/-- Get-or-create update of an association list (models mutation of a
`defaultdict` entry, preserving insertion order). -/
def updAssoc {α β : Type} [DecidableEq α] (dflt : β) :
    List (α × β) → α → (β → β) → List (α × β)
  | [], k, f => [(k, f dflt)]
  | (a, b) :: rest, k, f =>
      if a = k then (a, f b) :: rest else (a, b) :: updAssoc dflt rest k f

/-- Lookup in an association list. -/
def lookupAssoc {α β : Type} [DecidableEq α] (l : List (α × β)) (k : α) : Option β :=
  (l.find? (fun kv => decide (kv.1 = k))).map (fun kv => kv.2)

/-- Aggregate data per fingerprint: per-document-deduplicated count, up to
three example texts, and the set of styles seen (modelled as an
insertion-ordered deduplicated list). -/
structure FPData where
  count : Nat
  examples : List Text
  styles : List String
deriving DecidableEq

/-- The `defaultdict` default: `{"count": 0, "examples": [], "styles": set()}`. -/
def emptyFPData : FPData := ⟨0, [], []⟩

/-- Keep up to three distinct example texts. -/
def addExample (d : FPData) (txt : Text) : FPData :=
  if d.examples.length < 3 ∧ txt ∉ d.examples then
    { d with examples := d.examples ++ [txt] }
  else d

/-- Add a style to the styles set. -/
def addStyle (d : FPData) (st : String) : FPData :=
  if st ∈ d.styles then d else { d with styles := d.styles ++ [st] }

/-- Processing of one paragraph in `compute_fingerprint_counts`: the count is
bumped only on the first occurrence of the fingerprint in the current
document (`seen_in_doc`), examples and styles are collected on every
occurrence. -/
def procPara (acc : List (Fingerprint × FPData) × List Fingerprint) (p : NormPara) :
    List (Fingerprint × FPData) × List Fingerprint :=
  let fp := p.fingerprint
  (updAssoc emptyFPData acc.1 fp (fun d =>
      addStyle (addExample { d with count := d.count + (if fp ∈ acc.2 then 0 else 1) } p.text)
        p.style),
   if fp ∈ acc.2 then acc.2 else acc.2 ++ [fp])

/-- Processing of one document: fold its paragraphs with a fresh
`seen_in_doc` set. -/
def procProfile (st : List (Fingerprint × FPData)) (pr : DocProfile) :
    List (Fingerprint × FPData) :=
  (pr.paragraphs.foldl procPara (st, [])).1

/-- `compute_fingerprint_counts`: fold over all documents. -/
def compute_fingerprint_counts (profiles : List DocProfile) :
    List (Fingerprint × FPData) :=
  profiles.foldl procProfile []

/-!
Phase 2B: `classify_paragraphs`.
-/

/-- One classification record as built by `classify_paragraphs`. -/
structure ClsEntry where
  fingerprint : Fingerprint
  occurrence_count : Nat
  occurrence_rate : ℚ
  examples : List Text
  styles : List String
deriving DecidableEq

/-- The classification: fixed (boilerplate) and variable fingerprints.  The
Python dicts are modelled as insertion-ordered association lists; the second
field is named `variable_` because `variable` is a Lean keyword. -/
structure Classification where
  fixed : List (Fingerprint × ClsEntry)
  variable_ : List (Fingerprint × ClsEntry)
deriving DecidableEq

/-- Length of `data["examples"][0]`.  On the aggregated stats the examples
list is never empty (`examples_ne_nil_compute`); Python would raise
`IndexError` on an empty list, the model returns 0. -/
def firstExampleLen (d : FPData) : Nat := (d.examples.headD []).length

/-- The `is_fixed` test of `classify_paragraphs`. -/
def isFixedEntry (d : FPData) (min_count : ℤ) : Bool :=
  decide ((d.count : ℤ) ≥ min_count) && decide (firstExampleLen d ≥ min_text_length)

/-- The classification record built for one fingerprint. -/
def mkClsEntry (fp : Fingerprint) (d : FPData) (total_docs : Nat) : ClsEntry :=
  { fingerprint := fp, occurrence_count := d.count,
    occurrence_rate := divNatQ d.count total_docs,
    examples := d.examples, styles := d.styles }

/-- `classify_paragraphs`: `min_count = int(total_docs * threshold)`; a
fingerprint is fixed iff its count reaches `min_count` and its first example
text is at least `min_text_length` long. -/
def classify_paragraphs (fingerprint_counts : List (Fingerprint × FPData))
    (total_docs : Nat) (threshold : ℚ) : Classification :=
  let min_count := truncQ (mulQ (total_docs : ℚ) threshold)
  fingerprint_counts.foldl (fun acc kv =>
    if isFixedEntry kv.2 min_count then
      { acc with fixed := acc.fixed ++ [(kv.1, mkClsEntry kv.1 kv.2 total_docs)] }
    else
      { acc with variable_ := acc.variable_ ++ [(kv.1, mkClsEntry kv.1 kv.2 total_docs)] })
    ⟨[], []⟩

/-!
Phase 2C: `detect_sequences`.
-/

/-- Aggregate data per fingerprint n-gram. -/
structure SeqData where
  count : Nat
  examples : List (List Text)
deriving DecidableEq

/-- The `defaultdict` default for sequences. -/
def emptySeqData : SeqData := ⟨0, []⟩

/-- One retained sequence, as emitted by `detect_sequences`. -/
structure SeqEntry where
  sequence : List Fingerprint
  count : Nat
  rate : ℚ
  examples : List (List Text)
deriving DecidableEq

/-- Count one occurrence of an n-gram, keeping up to two example lists.  The
Python key `"||".join(seq)` is modelled by the tuple itself. -/
def bumpSeq (st : List (List Fingerprint × SeqData)) (key : List Fingerprint)
    (ex : List Text) : List (List Fingerprint × SeqData) :=
  updAssoc emptySeqData st key (fun d =>
    { count := d.count + 1,
      examples := if d.examples.length < 2 then d.examples ++ [ex] else d.examples })

/-- Inner loops of `detect_sequences` for one document: for every n-gram size
and every position, count the n-gram if its first fingerprint is fixed.
`range(len(fingerprints) - n + 1)` is `List.range (len + 1 - n)` (empty when
`n > len`, matching Python on negative range bounds). -/
def procSeqProfile (fixed_fingerprints : List Fingerprint) (sizes : List Nat)
    (st : List (List Fingerprint × SeqData)) (pr : DocProfile) :
    List (List Fingerprint × SeqData) :=
  let fps := pr.paragraphs.map (fun p => p.fingerprint)
  sizes.foldl (fun st n =>
    (List.range (fps.length + 1 - n)).foldl (fun st i =>
      let seq := (fps.drop i).take n
      match seq with
      | [] => st
      | s0 :: _ =>
          if s0 ∈ fixed_fingerprints then
            bumpSeq st seq (((pr.paragraphs.drop i).take n).map (fun p => p.text.take 50))
          else st) st) st

/-- Stable insertion into a sorted list (used to model Python stable sort). -/
def insSorted {α : Type} (le : α → α → Bool) (x : α) : List α → List α
  | [] => [x]
  | y :: ys => if le y x then y :: insSorted le x ys else x :: y :: ys

/-- Stable sort by a boolean total preorder. -/
def stableSort {α : Type} (le : α → α → Bool) (l : List α) : List α :=
  l.foldl (fun acc x => insSorted le x acc) []

/-- Sort key of `detect_sequences`: longer sequences first, then higher
count (`key=lambda x: (-len(x["sequence"]), -x["count"])`). -/
def seqKeyLE (a b : SeqEntry) : Bool :=
  b.sequence.length < a.sequence.length ||
  (b.sequence.length == a.sequence.length && b.count ≤ a.count)

/-- The output record of `detect_sequences` for one kept n-gram. -/
def mkSeqEntry (total_docs : Nat) (kv : List Fingerprint × SeqData) : SeqEntry :=
  { sequence := kv.1, count := kv.2.count,
    rate := divNatQ kv.2.count total_docs, examples := kv.2.examples }

/-- `detect_sequences`: count n-grams over all documents (every occurrence,
with no per-document deduplication), keep those whose total count reaches
`int(total_docs * CONFIG["boilerplate_threshold"])`, and sort. -/
def detect_sequences (profiles : List DocProfile)
    (fixed_fingerprints : List Fingerprint) (sizes : List Nat) : List SeqEntry :=
  let sequence_counts := profiles.foldl (procSeqProfile fixed_fingerprints sizes) []
  let total_docs := profiles.length
  let min_count := truncQ (mulQ (total_docs : ℚ) boilerplate_threshold)
  let kept := sequence_counts.filter (fun kv => decide ((kv.2.count : ℤ) ≥ min_count))
  stableSort seqKeyLE (kept.map (mkSeqEntry total_docs))

/-!
Phase 3A: `levenshtein_similarity` and `find_anchors`.
-/

/-- One inner step of the `levenshtein_similarity` distance matrix: walk the
second string together with the previous row (`pj1` is the entry above-left,
`pj` the entry above), `left` the entry just computed in the current row. -/
def levRowStep (c : Nat) : Text → List Nat → Nat → List Nat
  | b :: bs, pj1 :: pj :: rest, left =>
      let cost := if c = b then 0 else 1
      let v := min (pj + 1) (min (left + 1) (pj1 + cost))
      v :: levRowStep c bs (pj :: rest) v
  | _, _, _ => []

/-- Row iteration of the distance matrix, starting from row
`[0, 1, ..., len2]` (the loop over `i` in the source). -/
def levLoop (s2 : Text) : Text → List Nat → List Nat
  | [], row => row
  | a :: rest, row =>
      let first := row.headD 0 + 1
      levLoop s2 rest (first :: levRowStep a s2 row first)

/-- The Levenshtein distance `d[len1][len2]` computed row by row exactly as
in `levenshtein_similarity`. -/
def levDistance (s1 s2 : Text) : Nat :=
  (levLoop s2 s1 (List.range (s2.length + 1))).getLastD 0

/-- `levenshtein_similarity`: `0.0` when either string is empty (the source
checks this twice), else `1 - distance / max_len`. -/
def levenshtein_similarity (s1 s2 : Text) : ℚ :=
  if s1.isEmpty || s2.isEmpty then 0
  else subQ 1 (divNatQ (levDistance s1 s2) (max s1.length s2.length))

/-- The `KNOWN_ANCHORS` vocabulary, in source order. -/
def KNOWN_ANCHORS : List String :=
  ["Gutachterliche Fragestellung",
   "Fragestellung",
   "1. Anamnese",
   "Anamnese",
   "2. Untersuchungsbefunde",
   "Untersuchungsbefunde",
   "3. Diagnosen",
   "Diagnosen",
   "Diagnose",
   "4. Epikrise",
   "Epikrise",
   "5. Sozialmedizinische Leistungsbeurteilung",
   "Sozialmedizinische Leistungsbeurteilung",
   "1.1 Anamnese medizinischer Daten",
   "Anamnese medizinischer Daten",
   "1.2 Biografische Anamnese",
   "Biografische Anamnese",
   "Familienanamnese",
   "Eigenanamnese",
   "Sozialanamnese",
   "Vegetative Anamnese",
   "Aktuelle Beschwerden",
   "Jetzige Beschwerden",
   "Aktuelle Medikation",
   "Therapie und behandelnde Ärzte",
   "Neurologischer Befund",
   "Körperlicher Befund",
   "Psychischer Befund",
   "Neurologischer/körperlicher Untersuchungsbefund",
   "Beurteilung",
   "Zusammenfassung",
   "Therapieempfehlung",
   "Empfehlung",
   "Hamilton Depression Scale",
   "Vorgelegte Klinikaufenthalte"]

/-- Boolean sublist-at-front test over characters. -/
def containsSubFrom (needle : List Char) : List Char → Bool
  | [] => needle.isEmpty
  | c :: cs => needle.isPrefixOf (c :: cs) || containsSubFrom needle cs

/-- Python `haystack.__contains__(needle)` on strings. -/
def strContains (needle hay : String) : Bool := containsSubFrom needle.data hay.data

/-- Python `str.rstrip(ch)`: drop all trailing occurrences of one codepoint. -/
def rstripChar (c : Nat) (t : Text) : Text :=
  (t.reverse.dropWhile (fun d => d == c)).reverse

/-- Candidate data accumulated by `find_anchors` per known anchor. -/
structure AnchorData where
  count : Nat
  variants : List Text
  styles : List String
deriving DecidableEq

/-- The `defaultdict` default for anchor candidates. -/
def emptyAnchorData : AnchorData := ⟨0, [], []⟩

/-- Normalization applied to an anchor candidate text:
`normalize_basic(text.rstrip(':').rstrip('-').strip())`. -/
def candNorm (text : Text) : Text :=
  normalize_basic (pyStrip (rstripChar 45 (rstripChar 58 text)))

/-- The inner vocabulary loop of `find_anchors`: the first known anchor whose
basic-normalized form is within the similarity threshold (the `break` makes
this first-match-wins). -/
def anchorFirstMatch (norm_text : Text) : Option String :=
  KNOWN_ANCHORS.find? (fun known =>
    decide (anchor_similarity_threshold ≤
      levenshtein_similarity norm_text (normalize_basic (strCodes known))))

/-- The candidate-collection loops of `find_anchors`. -/
def anchorScan (profiles : List DocProfile) : List (String × AnchorData) :=
  profiles.foldl (fun acc pr =>
    pr.paragraphs.foldl (fun acc p =>
      let text := pyStrip p.text
      if text.isEmpty || decide (text.length > 100) then acc
      else
        let is_heading_style := strContains "Heading" p.style ||
          p.style == "Title" || p.style == "Subtitle"
        let is_short := decide (text.length < 60)
        if is_heading_style || is_short then
          match anchorFirstMatch (candNorm text) with
          | some known =>
              updAssoc emptyAnchorData acc known (fun d =>
                { count := d.count + 1,
                  variants := if text ∈ d.variants then d.variants else d.variants ++ [text],
                  styles := if p.style ∈ d.styles then d.styles else d.styles ++ [p.style] })
          | none => acc
        else acc) acc) []

/-- One recognized anchor. -/
structure Anchor where
  id : Text
  canonical_text : String
  match_mode : String
  min_similarity : ℚ
  variants_seen : List Text
  occurrence_rate : ℚ
  styles : List String
deriving DecidableEq

/-- The anchor id slug: `name.lower().replace(" ", "_")`. -/
def anchorSlug (name : String) : Text :=
  ((strCodes name).map lowerChar).map (fun c => if c = 32 then 95 else c)

/-- Position of an anchor id in the canonical vocabulary order
(`order.get(id, 999)`). -/
def anchorOrderIdx (id : Text) : Nat :=
  (((KNOWN_ANCHORS.map anchorSlug).findIdx? (fun s => decide (s = id)))).getD 999

/-- The anchor record built by `find_anchors` for one retained candidate. -/
def mkAnchor (name : String) (d : AnchorData) (total_docs : Nat) : Anchor :=
  { id := anchorSlug name, canonical_text := name, match_mode := "fuzzy",
    min_similarity := anchor_similarity_threshold,
    variants_seen := d.variants.take 5,
    occurrence_rate := divNatQ d.count total_docs,
    styles := d.styles }

/-- `find_anchors`: collect candidates, keep anchors present in at least half
of the documents, and sort them into canonical vocabulary order.  The
`classification` argument is accepted and ignored, as in the source. -/
def find_anchors (profiles : List DocProfile) (classification : Classification) :
    List Anchor :=
  let heading_candidates := anchorScan profiles
  let total_docs := profiles.length
  let anchors := (heading_candidates.filter (fun kv =>
      decide (mulQ (total_docs : ℚ) (mkRat 1 2) ≤ (kv.2.count : ℚ)))).map
    (fun kv => mkAnchor kv.1 kv.2 total_docs)
  stableSort (fun a b => anchorOrderIdx a.id ≤ anchorOrderIdx b.id) anchors

/-!
Phases 3B-5: skeleton, style roles, header/footer, template spec.
-/

/-- A skeleton node: a fixed block or a content slot. -/
inductive SkeletonNode where
  | fixed (id : Text) (paragraphs : List (Text × String))
  | slot (slot_id : Text) (section_name : String) (allowed_styles : List String)
      (list_behavior : String) (optional : Bool)
deriving DecidableEq

/-- `build_skeleton`: for each anchor a fixed heading node followed by a
content slot; the slot is optional below an occurrence rate of 0.8.  The
`profiles` and `classification` arguments are accepted and unused, as in the
source. -/
def build_skeleton (profiles : List DocProfile) (anchors : List Anchor)
    (classification : Classification) : List SkeletonNode :=
  anchors.flatMap (fun a =>
    [SkeletonNode.fixed (a.id ++ strCodes "_heading")
        [(strCodes a.canonical_text, a.styles.headD "Heading 1")],
     SkeletonNode.slot (a.id ++ strCodes "_body") a.canonical_text
        ["BODY", "BULLET"] "bullets_allowed"
        (decide (a.occurrence_rate < mkRat 8 10))])

/-- The style-role map of `extract_style_roles`. -/
structure StyleRoles where
  H1 : String
  H2 : String
  H3 : String
  BODY : String
  BULLET : String
  TITLE : String
deriving DecidableEq

/-- The heading/body/list style tallies of `extract_style_roles`. -/
def styleTallies (profiles : List DocProfile) :
    List (String × Nat) × List (String × Nat) × List (String × Nat) :=
  profiles.foldl (fun acc pr =>
    pr.paragraphs.foldl (fun acc p =>
      let text := pyStrip p.text
      if strContains "Heading" p.style || p.style == "Title" || p.style == "Subtitle" then
        (updAssoc 0 acc.1 p.style (fun n => n + 1), acc.2.1, acc.2.2)
      else if p.is_list then
        (acc.1, acc.2.1, updAssoc 0 acc.2.2 p.style (fun n => n + 1))
      else if !text.isEmpty && decide (text.length > 20) then
        (acc.1, updAssoc 0 acc.2.1 p.style (fun n => n + 1), acc.2.2)
      else acc) acc) ([], [], [])

/-- Python `max(d.items(), key=lambda x: x[1])[0]` with a default for an
empty dict (ties go to the first item in insertion order). -/
def most_common (d : List (String × Nat)) (dflt : String) : String :=
  match d with
  | [] => dflt
  | x :: xs => (xs.foldl (fun best y => if y.2 > best.2 then y else best) x).1

/-- `extract_style_roles`. -/
def extract_style_roles (profiles : List DocProfile) : StyleRoles :=
  let t := styleTallies profiles
  { H1 := most_common (t.1.filter (fun kv => strContains "1" kv.1)) "Heading 1",
    H2 := most_common (t.1.filter (fun kv => strContains "2" kv.1)) "Heading 2",
    H3 := most_common (t.1.filter (fun kv => strContains "3" kv.1)) "Heading 3",
    BODY := most_common t.2.1 "Normal",
    BULLET := most_common t.2.2 "List Bullet",
    TITLE := most_common (t.1.filter (fun kv => decide (kv.1 = "Title"))) "Title" }

/-- Output of `extract_kopfzeile`. -/
structure Kopfzeile where
  header : Text
  footer : Text
  header_variants : List Text
  footer_variants : List Text
deriving DecidableEq

/-- Python `max(d.items(), key=lambda x: x[1])[0]` over text keys, empty
string default. -/
def mostCommonText (d : List (Text × Nat)) : Text :=
  match d with
  | [] => []
  | x :: xs => (xs.foldl (fun best y => if y.2 > best.2 then y else best) x).1

/-- `extract_kopfzeile`: most frequent header/footer text with up to five
variants each. -/
def extract_kopfzeile (profiles : List DocProfile) : Kopfzeile :=
  let all_headers := profiles.flatMap (fun pr => pr.headers)
  let all_footers := profiles.flatMap (fun pr => pr.footers)
  let header_counts := all_headers.foldl (fun l h => updAssoc 0 l h (fun n => n + 1)) []
  let footer_counts := all_footers.foldl (fun l f => updAssoc 0 l f (fun n => n + 1)) []
  { header := mostCommonText header_counts,
    footer := mostCommonText footer_counts,
    header_variants := (header_counts.map (fun kv => kv.1)).take 5,
    footer_variants := (footer_counts.map (fun kv => kv.1)).take 5 }

/-- The final `TemplateSpec` (the `created_at` timestamp and the constant
`render_rules` block are omitted from the model; `quality_metrics` fields are
inlined). -/
structure TemplateSpec where
  version : String
  family_id : String
  family_name : String
  anchors : List Anchor
  skeleton : List SkeletonNode
  style_roles : StyleRoles
  kopfzeile_content : Text
  kopfzeile_variants : List Text
  fusszeile_content : Text
  fusszeile_variants : List Text
  documents_analyzed : Nat
  fixed_blocks_found : Nat
  variable_blocks_found : Nat
  anchors_detected : Nat
  quality_boilerplate_threshold : ℚ
deriving DecidableEq

/-- `build_template_spec`. -/
def build_template_spec (profiles : List DocProfile) (classification : Classification)
    (anchors : List Anchor) (skeleton : List SkeletonNode)
    (style_roles : StyleRoles) (kopfzeile : Kopfzeile) : TemplateSpec :=
  { version := "1.0", family_id := "default", family_name := "Default Template",
    anchors := anchors, skeleton := skeleton, style_roles := style_roles,
    kopfzeile_content := kopfzeile.header, kopfzeile_variants := kopfzeile.header_variants,
    fusszeile_content := kopfzeile.footer, fusszeile_variants := kopfzeile.footer_variants,
    documents_analyzed := profiles.length,
    fixed_blocks_found := classification.fixed.length,
    variable_blocks_found := classification.variable_.length,
    anchors_detected := anchors.length,
    quality_boilerplate_threshold := boilerplate_threshold }

/-- The `extract_template` pipeline from the point where the per-file parse
loop has produced the successfully parsed profiles (file discovery, the
per-file try/except and all file writes are I/O outside the model).  `none`
is returned exactly when no profile was extracted; otherwise all phases run
on however many profiles there are — even a single one — and a
`TemplateSpec` is produced. -/
def extract_template_run (profiles : List DocProfile) : Option TemplateSpec :=
  if profiles.isEmpty then none
  else
    let fingerprint_counts := compute_fingerprint_counts profiles
    let classification := classify_paragraphs fingerprint_counts profiles.length
      boilerplate_threshold
    let fixed_fps := classification.fixed.map (fun kv => kv.1)
    let _sequences := detect_sequences profiles fixed_fps ngram_sizes
    let anchors := find_anchors profiles classification
    let skeleton := build_skeleton profiles anchors classification
    let style_roles := extract_style_roles profiles
    let kopfzeile := extract_kopfzeile profiles
    some (build_template_spec profiles classification anchors skeleton
      style_roles kopfzeile)

/-!
The analyzer script `style_profile_analyzer.py`: paragraph fingerprints with
the patient-specific heuristic, document extraction and the intersection
pipeline of `StyleProfileAnalyzer.analyze_documents`.
-/

/-- Model of `re.sub(r':$', '', text)`: remove a single trailing colon. -/
def dropTrailingColon (t : Text) : Text :=
  if t.getLast? = some 58 then t.dropLast else t

/-- `ParagraphFingerprint._normalize_text`: collapse whitespace, replace
non-breaking spaces, trim, drop one trailing colon; empty text maps to
itself. -/
def pf_normalize_text (t : Text) : Text :=
  if t.isEmpty then []
  else dropTrailingColon (pyStrip ((collapseWS t).map (fun c => if c = 160 then 32 else c)))

/-!
The `patient_patterns` of `is_likely_patient_specific`.
-/

/-- Pattern `\b(herr|frau|patient|patientin)\s+[A-ZÄÖÜ][a-zäöüß]+`. -/
def patientPat1 : Pattern :=
  [⟨true, seqs [alts [litIC (strCodes "herr"), litIC (strCodes "frau"),
      litIC (strCodes "patient"), litIC (strCodes "patientin")],
    many1P isSpace, chrP (icP clsUpperGerman), many1P (icP clsLowerGerman)], false⟩]

/-- Pattern `\bgeb\.\s*\d`. -/
def patientPat2 : Pattern :=
  [⟨true, seqs [litIC (strCodes "geb"), litc 46, manyP isSpace, chrP isDigitC], false⟩]

/-- Pattern `\bgeboren\s+(am\s*)?\d`. -/
def patientPat3 : Pattern :=
  [⟨true, seqs [litIC (strCodes "geboren"), many1P isSpace,
    optR (seqs [litIC (strCodes "am"), manyP isSpace]), chrP isDigitC], false⟩]

/-- Pattern `\bversicherungsnummer\s*:?\s*\d`. -/
def patientPat4 : Pattern :=
  [⟨true, seqs [litIC (strCodes "versicherungsnummer"), manyP isSpace,
    optR (litc 58), manyP isSpace, chrP isDigitC], false⟩]

/-- Pattern `\baz\.?\s*:?\s*\d`. -/
def patientPat5 : Pattern :=
  [⟨true, seqs [litIC (strCodes "az"), optR (litc 46), manyP isSpace,
    optR (litc 58), manyP isSpace, chrP isDigitC], false⟩]

/-- Pattern `\bwohnhaft`. -/
def patientPat6 : Pattern := [⟨true, litIC (strCodes "wohnhaft"), false⟩]

/-- Pattern `\bstraße|str\.`: the leading word boundary binds only to the
first alternative. -/
def patientPat7 : Pattern :=
  [⟨true, litIC (strCodes "straße"), false⟩,
   ⟨false, seqs [litIC (strCodes "str"), litc 46], false⟩]

/-- Pattern `\d{5}\s+[A-ZÄÖÜ]` (postal code plus city). -/
def patientPat8 : Pattern :=
  [⟨false, seqs [repP isDigitC 5 5, many1P isSpace, chrP (icP clsUpperGerman)], false⟩]

/-- Pattern `\b\d{1,2}\.\d{1,2}\.\d{2,4}\b` (bare dates). -/
def patientPat9 : Pattern :=
  [⟨true, seqs [repP isDigitC 1 2, litc 46, repP isDigitC 1 2, litc 46,
    repP isDigitC 2 4], true⟩]

/-- The ordered `patient_patterns` list. -/
def patient_patterns : List Pattern :=
  [patientPat1, patientPat2, patientPat3, patientPat4, patientPat5,
   patientPat6, patientPat7, patientPat8, patientPat9]

/-- `ParagraphFingerprint.is_likely_patient_specific`: search the lowercased
normalized text for any of the heuristic patterns (all searched with
`re.IGNORECASE`). -/
def is_likely_patient_specific (norm_text : Text) : Bool :=
  patient_patterns.any (fun p => reSearch p (norm_text.map lowerChar))

/-- The two fingerprint modes of the analyzer. -/
inductive PFMode where
  | STRICT
  | COMMON
deriving DecidableEq

/-- A `ParagraphFingerprint.to_dict` record (`block_id` and the run
formatting metadata are omitted; the md5 hash is modelled as the identity on
the hashed text). -/
structure PFBlock where
  raw_text : Text
  norm_text : Text
  style : String
  fingerprint : Text
  is_patient_specific : Bool
deriving DecidableEq

/-- Construction of a `ParagraphFingerprint`: the fingerprint hashes the raw
text in `STRICT` mode and the normalized text in `COMMON` mode. -/
def mkParagraphFingerprint (mode : PFMode) (text : Text) (style : String) : PFBlock :=
  let nt := pf_normalize_text text
  { raw_text := text, norm_text := nt, style := style,
    fingerprint := match mode with | PFMode.STRICT => text | PFMode.COMMON => nt,
    is_patient_specific := is_likely_patient_specific nt }

/-- Raw input of `DocumentExtractor`: body, header and footer paragraphs as
text/style pairs. -/
structure RawDoc where
  body : List (Text × String)
  header : List (Text × String)
  footer : List (Text × String)
deriving DecidableEq

/-- Order-preserving deduplication (model of building a Python `set` and
iterating it; CPython iterates small sets of strings in insertion order
often, and nothing downstream depends on the order). -/
def dedupAux {α : Type} [DecidableEq α] (seen : List α) : List α → List α
  | [] => []
  | x :: xs => if x ∈ seen then dedupAux seen xs else x :: dedupAux (seen ++ [x]) xs

/-- Order-preserving deduplication. -/
def dedupKeepFirst {α : Type} [DecidableEq α] (l : List α) : List α := dedupAux [] l

/-- The extracted data of one document (`DocumentExtractor.extract`):
paragraphs with blank text are skipped everywhere. -/
structure DocData where
  body : List PFBlock
  header : List PFBlock
  footer : List PFBlock
  paragraph_count : Nat
  fingerprints : List Text
deriving DecidableEq

/-- `DocumentExtractor.extract`. -/
def extractDoc (mode : PFMode) (rd : RawDoc) : DocData :=
  let body := (rd.body.filter (fun bp => !(pyStrip bp.1).isEmpty)).map
    (fun bp => mkParagraphFingerprint mode bp.1 bp.2)
  let header := (rd.header.filter (fun bp => !(pyStrip bp.1).isEmpty)).map
    (fun bp => mkParagraphFingerprint mode bp.1 bp.2)
  let footer := (rd.footer.filter (fun bp => !(pyStrip bp.1).isEmpty)).map
    (fun bp => mkParagraphFingerprint mode bp.1 bp.2)
  { body := body, header := header, footer := footer,
    paragraph_count := body.length,
    fingerprints := dedupKeepFirst (body.map (fun p => p.fingerprint)) }

/-- A common block record of `analyze_documents`. -/
structure CommonBlock where
  text : Text
  style : String
  fingerprint : Text
deriving DecidableEq

/-- An excluded block record of `analyze_documents`. -/
structure ExcludedBlock where
  text_preview : Text
  reason : String
deriving DecidableEq

/-- The analysis profile built by `analyze_documents` (paths, timestamps and
the formatting block are omitted; the statistics fields are inlined). -/
structure AnalysisResult where
  analyzed_documents : Nat
  common_fingerprints : List Text
  common_blocks : List CommonBlock
  excluded_blocks : List ExcludedBlock
  clear_header : Bool
  clear_footer : Bool
  total_paragraphs_in_reference : Nat
  common_paragraphs : Nat
  excluded_paragraphs : Nat
deriving DecidableEq

/-- `StyleProfileAnalyzer.analyze_documents` on the documents that were
extracted without error: fewer than two valid documents raise
`ValueError("Need at least 2 documents to find common content")` (modelled
as `Except.error`); otherwise the fingerprint intersection is computed, the
first document is the reference, common blocks exclude patient-specific
content, and the excluded list is truncated to 20 records after the
statistics are taken. -/
def analyze_documents (docs : List DocData) : Except String AnalysisResult :=
  match docs with
  | [] => Except.error "Need at least 2 documents to find common content"
  | [_] => Except.error "Need at least 2 documents to find common content"
  | reference :: _ :: _ =>
    let all_fp_sets := docs.map (fun d => d.fingerprints)
    let common_fingerprints : List Text := match all_fp_sets with
      | [] => []
      | s :: rest => rest.foldl (fun acc t => acc.filter (fun fp => fp ∈ t)) s
    let common_blocks := reference.body.filterMap (fun b =>
      if b.fingerprint ∈ common_fingerprints then
        if b.is_patient_specific then none
        else some (⟨b.raw_text, b.style, b.fingerprint⟩ : CommonBlock)
      else none)
    let excluded_blocks := reference.body.filterMap (fun b =>
      if b.fingerprint ∈ common_fingerprints then
        if b.is_patient_specific then
          some (⟨b.raw_text.take 50, "patient_specific_content"⟩ : ExcludedBlock)
        else none
      else some (⟨b.raw_text.take 50, "not_in_all_documents"⟩ : ExcludedBlock))
    let header_fp_sets := docs.filterMap (fun d =>
      if d.header.isEmpty then none
      else some (dedupKeepFirst (d.header.map (fun p => p.fingerprint))))
    let clear_header := header_fp_sets.isEmpty ||
      (match header_fp_sets with
       | [] => true
       | s :: rest => (rest.foldl (fun acc t => acc.filter (fun fp => fp ∈ t)) s).isEmpty)
    Except.ok ⟨docs.length, common_fingerprints, common_blocks,
      excluded_blocks.take 20, clear_header, true,
      reference.paragraph_count, common_blocks.length, excluded_blocks.length⟩

/-!
Association-list infrastructure lemmas.
-/

/-- Keys of an association list. -/
def keysOf {α β : Type} (l : List (α × β)) : List α := l.map Prod.fst

/-!
Counting lemmas for `compute_fingerprint_counts`.
-/

/-- The count recorded for a fingerprint in the aggregated stats. -/
def countOf (st : List (Fingerprint × FPData)) (fp : Fingerprint) : Nat :=
  ((lookupAssoc st fp).getD emptyFPData).count

/-- The fingerprints of a document in paragraph order. -/
def fpsOf (pr : DocProfile) : List Fingerprint :=
  pr.paragraphs.map (fun q => q.fingerprint)

/-!
Occurrence counting for `detect_sequences`.
-/

/-- The n-gram occurrence generated at position `i` for size `n` in one
document, if any: the n-gram must be nonempty and start with a fixed
fingerprint.  The second component is the example text list recorded by the
source. -/
def genPair (pr : DocProfile) (fx : List Fingerprint) (n i : Nat) :
    Option (List Fingerprint × List Text) :=
  match ((fpsOf pr).drop i).take n with
  | [] => none
  | s0 :: rest =>
      if s0 ∈ fx then
        some (s0 :: rest, ((pr.paragraphs.drop i).take n).map (fun p => p.text.take 50))
      else none

/-- All occurrence events of one document, in scan order. -/
def pairsOfProfile (fx : List Fingerprint) (sizes : List Nat) (pr : DocProfile) :
    List (List Fingerprint × List Text) :=
  sizes.flatMap (fun n =>
    (List.range ((fpsOf pr).length + 1 - n)).filterMap (genPair pr fx n))

/-- All occurrence events of the corpus, in scan order. -/
def allPairs (profiles : List DocProfile) (fx : List Fingerprint) (sizes : List Nat) :
    List (List Fingerprint × List Text) :=
  profiles.flatMap (pairsOfProfile fx sizes)

/-- All position-wise occurrences of fixed-headed n-grams across the corpus:
a document containing an n-gram several times contributes one entry per
occurrence. -/
def allNgrams (profiles : List DocProfile) (fx : List Fingerprint) (sizes : List Nat) :
    List (List Fingerprint) :=
  (allPairs profiles fx sizes).map Prod.fst

/-- Total number of occurrences of one n-gram across the corpus (repeats
within a document all count). -/
def ngramOccCount (profiles : List DocProfile) (fx : List Fingerprint)
    (sizes : List Nat) (seq : List Fingerprint) : Nat :=
  (allNgrams profiles fx sizes).countP (fun s => decide (s = seq))

/-- The count recorded for an n-gram key in the sequence stats. -/
def seqCountOf (st : List (List Fingerprint × SeqData)) (key : List Fingerprint) : Nat :=
  ((lookupAssoc st key).getD emptySeqData).count

/-!
Concrete inputs used by the claim counterexamples and witnesses.
-/

/-- Fingerprint of the disclaimer paragraph used in the threshold examples. -/
def c1fp : Fingerprint := ("Normal", strCodes "haftungsausschluss gilt.")

/-- Aggregated data of a fingerprint present in 4 documents. -/
def c1data4 : FPData := ⟨4, [strCodes "Haftungsausschluss gilt."], ["Normal"]⟩

/-- Aggregated data of a fingerprint present in 5 documents. -/
def c1data5 : FPData := ⟨5, [strCodes "Haftungsausschluss gilt."], ["Normal"]⟩

/-- Stats with the disclaimer present in 4 of 5 documents. -/
def c1stats4 : List (Fingerprint × FPData) := [(c1fp, c1data4)]

/-- Stats with the disclaimer present in 5 of 5 documents. -/
def c1stats5 : List (Fingerprint × FPData) := [(c1fp, c1data5)]

/-- A patient-specific sentence: honorific, name and birth date. -/
def c2text : Text := strCodes "Herr Schmidt, geb. 03.05.1970"

/-- The raw paragraph holding the patient-specific sentence. -/
def c2para : RawPara := ⟨c2text, "Normal", false⟩

/-- Five documents, each exactly the patient-specific sentence. -/
def c2profiles : List DocProfile :=
  List.replicate 5 (add_normalizations ⟨[c2para], [], []⟩)

/-- The fingerprint the extractor assigns to the patient-specific sentence. -/
def c2fp : Fingerprint := (normalizePara c2para).fingerprint

/-- One extracted document with a single neutral body paragraph. -/
def c2wDoc : DocData :=
  extractDoc PFMode.COMMON ⟨[(strCodes "Befund", "Normal")], [], []⟩

/-- The common block the analyzer reports for `c2wDoc`. -/
def c2wCb : CommonBlock := ⟨strCodes "Befund", "Normal", strCodes "Befund"⟩

/-- The analysis profile of two copies of `c2wDoc`. -/
def c2wRes : AnalysisResult :=
  ⟨2, [strCodes "Befund"], [c2wCb], [], true, true, 1, 1, 0⟩

/-- A one-paragraph document profile for the single-document run. -/
def c3profile : DocProfile :=
  add_normalizations ⟨[⟨strCodes "Gilt.", "Normal", false⟩], [], []⟩

/-- Paragraphs A, B, C used in the sequence-mining counterexample. -/
def c4pA : RawPara := ⟨strCodes "Alpha", "Normal", false⟩

/-- Paragraph B of the sequence-mining counterexample. -/
def c4pB : RawPara := ⟨strCodes "Beta", "Normal", false⟩

/-- Paragraph C of the sequence-mining counterexample. -/
def c4pC : RawPara := ⟨strCodes "Gamma", "Normal", false⟩

/-- A document in which the bigram A, B occurs twice. -/
def c4doc1 : DocProfile := add_normalizations ⟨[c4pA, c4pB, c4pA, c4pB], [], []⟩

/-- A document without the bigram. -/
def c4doc2 : DocProfile := add_normalizations ⟨[c4pC], [], []⟩

/-- Three documents of which only the first contains the bigram. -/
def c4docs : List DocProfile := [c4doc1, c4doc2, c4doc2]

/-- Fingerprint of paragraph A. -/
def c4fpA : Fingerprint := (normalizePara c4pA).fingerprint

/-- Fingerprint of paragraph B. -/
def c4fpB : Fingerprint := (normalizePara c4pB).fingerprint

/-- Whether a document contains the fingerprint n-gram contiguously and in
order. -/
def hasNgram (pr : DocProfile) (seq : List Fingerprint) : Bool :=
  (List.range ((fpsOf pr).length + 1)).any
    (fun i => decide (((fpsOf pr).drop i).take seq.length = seq))

/-- A paragraph whose text is empty after trimming. -/
def c5para : RawPara := ⟨[], "Normal", false⟩

/-- A one-paragraph profile holding only the empty paragraph. -/
def c5profile : DocProfile := add_normalizations ⟨[c5para], [], []⟩

/-- A one-paragraph raw document used by several witnesses. -/
def c6para : RawPara := ⟨strCodes "Befundbericht", "Normal", false⟩

/-- The profile of the one-paragraph document. -/
def c6profile : DocProfile := add_normalizations ⟨[c6para], [], []⟩

/-- The classification entry the classifier emits for `c6para` in a
one-document corpus. -/
def c6entry : ClsEntry :=
  ⟨(normalizePara c6para).fingerprint, 1, 1, [strCodes "Befundbericht"], ["Normal"]⟩

/-- A fingerprint present in the single document of the C7 witness. -/
def c7fp : Fingerprint := ("Normal", strCodes "zusammenfassung")

/-- Stats of the C7 witness corpus. -/
def c7stats : List (Fingerprint × FPData) :=
  [(c7fp, ⟨1, [strCodes "Zusammenfassung"], ["Normal"]⟩)]

/-- The paragraph of the C10 witness corpus. -/
def c10para : RawPara := ⟨strCodes "Zusammenfassung", "Normal", false⟩

/-- The profile of the C10 witness corpus. -/
def c10profile : DocProfile := add_normalizations ⟨[c10para], [], []⟩

/-- The fingerprint of the C10 witness paragraph. -/
def c10fp : Fingerprint := (normalizePara c10para).fingerprint

theorem lowerChar_idem (n : Nat) : lowerChar (lowerChar n) = lowerChar n := by
  unfold lowerChar
  split_ifs <;> omega

theorem head?_of_isPrefix {l₁ l₂ : Text} {c : Nat} (h : l₁ <+: l₂)
    (hc : l₁.head? = some c) : l₂.head? = some c := by
  obtain ⟨t, rfl⟩ := h
  cases l₁ with
  | nil => simp at hc
  | cons a l => simpa using hc

theorem dropWhile_head_not {p : Nat → Bool} :
    ∀ (l : Text) (c : Nat), (l.dropWhile p).head? = some c → p c = false := by
  intro l
  induction l with
  | nil => intro c hc; simp [List.dropWhile] at hc
  | cons a l ih =>
      intro c hc
      by_cases ha : p a
      · rw [List.dropWhile_cons_of_pos ha] at hc
        exact ih c hc
      · rw [List.dropWhile_cons_of_neg ha] at hc
        simp at hc
        subst hc
        exact Bool.eq_false_iff.mpr ha

theorem mem_dropWhile {p : Nat → Bool} :
    ∀ {l : Text} {a : Nat}, a ∈ l.dropWhile p → a ∈ l := by
  intro l
  induction l with
  | nil => intro a h; simp [List.dropWhile] at h
  | cons b l ih =>
      intro a h
      by_cases hb : p b
      · rw [List.dropWhile_cons_of_pos hb] at h
        exact List.mem_cons_of_mem _ (ih h)
      · rw [List.dropWhile_cons_of_neg hb] at h
        exact h

theorem dropWhile_eq_self_of_head {p : Nat → Bool} {l : Text}
    (h : ∀ c, l.head? = some c → p c = false) : l.dropWhile p = l := by
  cases l with
  | nil => rfl
  | cons a l =>
      have := h a (by simp)
      rw [List.dropWhile_cons_of_neg (by simp [this])]

theorem reverse_prefix_of_suffix {l₁ l₂ : Text} (h : l₁ <:+ l₂) :
    l₁.reverse <+: l₂.reverse := by
  obtain ⟨s, rfl⟩ := h
  exact ⟨s.reverse, by simp⟩

theorem mem_pyStrip {t : Text} {a : Nat} (h : a ∈ pyStrip t) : a ∈ t := by
  unfold pyStrip stripLeft at h
  rw [List.mem_reverse] at h
  have h1 := mem_dropWhile h
  rw [List.mem_reverse] at h1
  exact mem_dropWhile h1

theorem headNotSpace_pyStrip (t : Text) : headNotSpace (pyStrip t) := by
  intro c hc
  unfold pyStrip at hc
  have hpre : ((stripLeft t).reverse.dropWhile (fun c => isSpace c)).reverse <+: stripLeft t := by
    have := reverse_prefix_of_suffix
      (List.dropWhile_suffix (l := (stripLeft t).reverse) (fun c => isSpace c))
    rwa [List.reverse_reverse] at this
  have := head?_of_isPrefix hpre hc
  exact dropWhile_head_not (p := fun c => isSpace c) t c (by simpa [stripLeft] using this)

theorem lastNotSpace_pyStrip (t : Text) : lastNotSpace (pyStrip t) := by
  intro c hc
  unfold pyStrip at hc
  rw [List.getLast?_reverse] at hc
  exact dropWhile_head_not (p := fun c => isSpace c) _ c hc

theorem pyStrip_eq_self {t : Text} (h1 : headNotSpace t) (h2 : lastNotSpace t) :
    pyStrip t = t := by
  unfold pyStrip stripLeft
  rw [dropWhile_eq_self_of_head h1]
  rw [dropWhile_eq_self_of_head (fun c hc => h2 c (by rwa [← List.head?_reverse]))]
  exact List.reverse_reverse t

theorem collapseWS_nil : collapseWS [] = [] := rfl

theorem collapseWS_singleton_pos {c : Nat} (hc : isSpace c = true) :
    collapseWS [c] = [32] := by
  unfold collapseWS
  rw [if_pos hc]

theorem collapseWS_cons_pos_pos {c d : Nat} {t : Text} (hc : isSpace c = true)
    (hd : isSpace d = true) : collapseWS (c :: d :: t) = collapseWS (d :: t) := by
  conv_lhs => unfold collapseWS
  rw [if_pos hc]
  dsimp only
  rw [if_pos hd]

theorem collapseWS_cons_pos_neg {c d : Nat} {t : Text} (hc : isSpace c = true)
    (hd : isSpace d = false) : collapseWS (c :: d :: t) = 32 :: collapseWS (d :: t) := by
  conv_lhs => unfold collapseWS
  rw [if_pos hc]
  dsimp only
  rw [if_neg (by simp [hd])]

theorem collapseWS_cons_neg {c : Nat} {t : Text} (hc : isSpace c = false) :
    collapseWS (c :: t) = c :: collapseWS t := by
  conv_lhs => unfold collapseWS
  rw [if_neg (by simp [hc])]

theorem getLast?_cons_ne {a : Nat} {l : Text} (h : l ≠ []) :
    (a :: l).getLast? = l.getLast? := by
  cases l with
  | nil => exact absurd rfl h
  | cons b m => exact List.getLast?_cons_cons

theorem collapseWS_ne_nil : ∀ {t : Text}, t ≠ [] → collapseWS t ≠ [] := by
  intro t
  induction t with
  | nil => intro h; exact absurd rfl h
  | cons c cs ih =>
      intro _
      by_cases hc : isSpace c = true
      · cases cs with
        | nil => rw [collapseWS_singleton_pos hc]; simp
        | cons d rest =>
            by_cases hd : isSpace d = true
            · rw [collapseWS_cons_pos_pos hc hd]
              exact ih (by simp)
            · rw [collapseWS_cons_pos_neg hc (Bool.eq_false_iff.mpr hd)]
              simp
      · rw [collapseWS_cons_neg (Bool.eq_false_iff.mpr hc)]
        simp

theorem spaces32_collapseWS : ∀ (t : Text), spaces32 (collapseWS t) := by
  intro t
  induction t with
  | nil => intro c hc; simp [collapseWS_nil] at hc
  | cons c cs ih =>
      intro a ha hsp
      by_cases hc : isSpace c = true
      · cases cs with
        | nil =>
            rw [collapseWS_singleton_pos hc] at ha
            simp at ha
            omega
        | cons d rest =>
            by_cases hd : isSpace d = true
            · rw [collapseWS_cons_pos_pos hc hd] at ha
              exact ih a ha hsp
            · rw [collapseWS_cons_pos_neg hc (Bool.eq_false_iff.mpr hd)] at ha
              rcases List.mem_cons.mp ha with h | h
              · omega
              · exact ih a h hsp
      · rw [collapseWS_cons_neg (Bool.eq_false_iff.mpr hc)] at ha
        rcases List.mem_cons.mp ha with h | h
        · subst h; exact absurd hsp hc
        · exact ih a h hsp

theorem mem_collapseWS : ∀ {t : Text} {a : Nat}, a ∈ collapseWS t → a = 32 ∨ a ∈ t := by
  intro t
  induction t with
  | nil => intro a h; simp [collapseWS_nil] at h
  | cons c cs ih =>
      intro a h
      by_cases hc : isSpace c = true
      · cases cs with
        | nil =>
            rw [collapseWS_singleton_pos hc] at h
            simp at h
            exact Or.inl h
        | cons d rest =>
            by_cases hd : isSpace d = true
            · rw [collapseWS_cons_pos_pos hc hd] at h
              rcases ih h with h1 | h1
              · exact Or.inl h1
              · exact Or.inr (List.mem_cons_of_mem _ h1)
            · rw [collapseWS_cons_pos_neg hc (Bool.eq_false_iff.mpr hd)] at h
              rcases List.mem_cons.mp h with h1 | h1
              · exact Or.inl h1
              · rcases ih h1 with h2 | h2
                · exact Or.inl h2
                · exact Or.inr (List.mem_cons_of_mem _ h2)
      · rw [collapseWS_cons_neg (Bool.eq_false_iff.mpr hc)] at h
        rcases List.mem_cons.mp h with h1 | h1
        · exact Or.inr (h1 ▸ List.mem_cons_self _ _)
        · rcases ih h1 with h2 | h2
          · exact Or.inl h2
          · exact Or.inr (List.mem_cons_of_mem _ h2)

theorem spacesSingle_collapseWS : ∀ (t : Text), spacesSingle (collapseWS t) := by
  intro t
  induction t with
  | nil => simp [collapseWS_nil, spacesSingle]
  | cons c cs ih =>
      unfold spacesSingle at *
      by_cases hc : isSpace c = true
      · cases cs with
        | nil =>
            rw [collapseWS_singleton_pos hc]
            simp
        | cons d rest =>
            by_cases hd : isSpace d = true
            · rw [collapseWS_cons_pos_pos hc hd]
              exact ih
            · have hd32 : isSpace d = false := Bool.eq_false_iff.mpr hd
              rw [collapseWS_cons_pos_neg hc hd32]
              rw [List.chain'_cons']
              refine ⟨?_, ih⟩
              intro b hb _
              rw [collapseWS_cons_neg hd32] at hb
              simp at hb
              subst hb
              exact hd32
      · have hcf : isSpace c = false := Bool.eq_false_iff.mpr hc
        rw [collapseWS_cons_neg hcf]
        rw [List.chain'_cons']
        refine ⟨?_, ih⟩
        intro b _ habs
        exact absurd habs (by simp [hcf])

theorem headNotSpace_collapseWS {t : Text} (h : headNotSpace t) :
    headNotSpace (collapseWS t) := by
  intro a ha
  cases t with
  | nil => simp [collapseWS_nil] at ha
  | cons c cs =>
      have hc : isSpace c = false := h c (by simp)
      rw [collapseWS_cons_neg hc] at ha
      simp at ha
      exact ha ▸ hc

theorem lastNotSpace_collapseWS : ∀ {t : Text}, lastNotSpace t → lastNotSpace (collapseWS t) := by
  intro t
  induction t with
  | nil => intro _ a ha; simp [collapseWS_nil] at ha
  | cons c cs ih =>
      intro h a ha
      have htail : cs ≠ [] → lastNotSpace cs := by
        intro hne b hb
        exact h b (by rw [getLast?_cons_ne hne]; exact hb)
      by_cases hc : isSpace c = true
      · cases cs with
        | nil =>
            exfalso
            have := h c (by simp)
            rw [this] at hc
            exact Bool.false_ne_true hc
        | cons d rest =>
            by_cases hd : isSpace d = true
            · rw [collapseWS_cons_pos_pos hc hd] at ha
              exact ih (htail (by simp)) a ha
            · rw [collapseWS_cons_pos_neg hc (Bool.eq_false_iff.mpr hd)] at ha
              have hne : collapseWS (d :: rest) ≠ [] := collapseWS_ne_nil (by simp)
              rw [getLast?_cons_ne hne] at ha
              exact ih (htail (by simp)) a ha
      · rw [collapseWS_cons_neg (Bool.eq_false_iff.mpr hc)] at ha
        cases cs with
        | nil =>
            rw [collapseWS_nil] at ha
            simp at ha
            exact ha ▸ Bool.eq_false_iff.mpr hc
        | cons d rest =>
            have hne : collapseWS (d :: rest) ≠ [] := collapseWS_ne_nil (by simp)
            rw [getLast?_cons_ne hne] at ha
            exact ih (htail (by simp)) a ha

theorem collapseWS_eq_self : ∀ {t : Text}, spaces32 t → spacesSingle t → collapseWS t = t := by
  intro t
  induction t with
  | nil => intro _ _; rfl
  | cons c cs ih =>
      intro h32 hsg
      have htail32 : spaces32 cs := fun a ha => h32 a (List.mem_cons_of_mem _ ha)
      have htailsg : spacesSingle cs := (List.chain'_cons'.mp hsg).2
      by_cases hc : isSpace c = true
      · have hc32 : c = 32 := h32 c (List.mem_cons_self _ _) hc
        cases cs with
        | nil => rw [collapseWS_singleton_pos hc, hc32]
        | cons d rest =>
            have hd : isSpace d = false :=
              Bool.eq_false_iff.mpr (by
                intro hdt
                have := (List.chain'_cons'.mp hsg).1 d (by simp) hc
                rw [this] at hdt
                exact Bool.false_ne_true hdt)
            rw [collapseWS_cons_pos_neg hc hd, ih htail32 htailsg, hc32]
      · rw [collapseWS_cons_neg (Bool.eq_false_iff.mpr hc), ih htail32 htailsg]

/-! Charwise replacement maps: pointwise facts and transfer lemmas. -/

theorem quoteChar_space (c : Nat) :
    isSpace (if c = 34 ∨ c = 8222 then 34 else c) = isSpace c := by
  split_ifs with h
  · rcases h with h | h <;> subst h <;> decide
  · rfl

theorem aposChar_space (c : Nat) :
    isSpace (if c = 8218 then 39 else c) = isSpace c := by
  split_ifs with h
  · subst h; decide
  · rfl

theorem dashChar_space (c : Nat) :
    isSpace (if c = 8211 ∨ c = 8212 then 45 else c) = isSpace c := by
  split_ifs with h
  · rcases h with h | h <;> subst h <;> decide
  · rfl

theorem headNotSpace_map {f : Nat → Nat} (hf : ∀ c, isSpace (f c) = isSpace c)
    {t : Text} (h : headNotSpace t) : headNotSpace (t.map f) := by
  intro c hc
  cases t with
  | nil => simp at hc
  | cons a l =>
      simp at hc
      rw [← hc, hf a]
      exact h a (by simp)

theorem lastNotSpace_map {f : Nat → Nat} (hf : ∀ c, isSpace (f c) = isSpace c)
    {t : Text} (h : lastNotSpace t) : lastNotSpace (t.map f) := by
  intro c hc
  rw [← List.head?_reverse, ← List.map_reverse] at hc
  cases hrev : t.reverse with
  | nil => rw [hrev] at hc; simp at hc
  | cons a l =>
      rw [hrev] at hc
      simp at hc
      rw [← hc, hf a]
      have : t.getLast? = some a := by
        rw [← List.head?_reverse, hrev]
        rfl
      exact h a this

theorem spacesSingle_map {f : Nat → Nat} (hf : ∀ c, isSpace (f c) = isSpace c)
    {t : Text} (h : spacesSingle t) : spacesSingle (t.map f) := by
  unfold spacesSingle at *
  rw [List.chain'_map]
  refine List.Chain'.imp ?_ h
  intro a b hab
  rw [hf a, hf b]
  exact hab

theorem spaces32_map {f : Nat → Nat} (hf : ∀ c, isSpace (f c) = isSpace c)
    (hf32 : f 32 = 32) {t : Text} (h : spaces32 t) : spaces32 (t.map f) := by
  intro c hc hsp
  rcases List.mem_map.mp hc with ⟨b, hb, rfl⟩
  rw [hf b] at hsp
  rw [h b hb hsp, hf32]

theorem unify_comp_cleanChar (b : Nat) (hb : lowerChar b = b) :
    lowerChar
        ((fun c => if c = 8211 ∨ c = 8212 then 45 else c)
          ((fun c => if c = 8218 then 39 else c)
            ((fun c => if c = 34 ∨ c = 8222 then 34 else c) b))) =
      ((fun c => if c = 8211 ∨ c = 8212 then 45 else c)
          ((fun c => if c = 8218 then 39 else c)
            ((fun c => if c = 34 ∨ c = 8222 then 34 else c) b))) ∧
    (∀ x, x = ((fun c => if c = 8211 ∨ c = 8212 then 45 else c)
          ((fun c => if c = 8218 then 39 else c)
            ((fun c => if c = 34 ∨ c = 8222 then 34 else c) b))) →
      x ≠ 8222 ∧ x ≠ 8218 ∧ x ≠ 8211 ∧ x ≠ 8212) := by
  simp only
  split_ifs with h1 h2 h3 h4 h5 h6 <;>
    refine ⟨?_, fun x hx => ?_⟩ <;>
    first
      | decide
      | (subst hx; refine ⟨?_, ?_, ?_, ?_⟩ <;> omega)
      | exact hb
      | (subst hx
         refine ⟨?_, ?_, ?_, ?_⟩ <;> intro hh <;> subst hh <;>
           simp_all)

theorem basicClean_normalize_basic (t : Text) : basicClean (normalize_basic t) := by
  unfold normalize_basic
  set y1 := pyStrip (t.map lowerChar) with hy1
  set y2 := collapseWS y1 with hy2
  have h1head : headNotSpace y1 := headNotSpace_pyStrip _
  have h1last : lastNotSpace y1 := lastNotSpace_pyStrip _
  have h2head : headNotSpace y2 := headNotSpace_collapseWS h1head
  have h2last : lastNotSpace y2 := lastNotSpace_collapseWS h1last
  have h2sg : spacesSingle y2 := spacesSingle_collapseWS _
  have h2s32 : spaces32 y2 := spaces32_collapseWS _
  have h2low : ∀ c ∈ y2, lowerChar c = c := by
    intro c hc
    rcases mem_collapseWS hc with h | h
    · subst h; decide
    · have := mem_pyStrip h
      rcases List.mem_map.mp this with ⟨b, _, rfl⟩
      exact lowerChar_idem b
  unfold unifyQuotes unifyApostrophes unifyDashes
  rw [List.map_map, List.map_map]
  set F := ((fun c => if c = 8211 ∨ c = 8212 then 45 else c) ∘
      (fun c => if c = 8218 then 39 else c) ∘
      (fun c => if c = 34 ∨ c = 8222 then 34 else c)) with hF
  have hFspace : ∀ c, isSpace (F c) = isSpace c := by
    intro c
    simp only [hF, Function.comp_apply]
    rw [dashChar_space, aposChar_space, quoteChar_space]
  have hF32 : F 32 = 32 := by decide
  refine ⟨headNotSpace_map hFspace h2head, lastNotSpace_map hFspace h2last,
    spacesSingle_map hFspace h2sg, spaces32_map hFspace hF32 h2s32, ?_, ?_⟩
  · intro c hc
    rcases List.mem_map.mp hc with ⟨b, hb, rfl⟩
    exact (unify_comp_cleanChar b (h2low b hb)).1
  · intro c hc
    rcases List.mem_map.mp hc with ⟨b, hb, rfl⟩
    exact (unify_comp_cleanChar b (h2low b hb)).2 _ rfl

theorem normalize_basic_fixed {t : Text} (h : basicClean t) : normalize_basic t = t := by
  obtain ⟨hhead, hlast, hsg, hs32, hlow, hcls⟩ := h
  unfold normalize_basic
  have hmaplow : t.map lowerChar = t := by
    rw [List.map_congr_left hlow]
    exact List.map_id' t
  rw [hmaplow, pyStrip_eq_self hhead hlast, collapseWS_eq_self hs32 hsg]
  unfold unifyQuotes unifyApostrophes unifyDashes
  rw [List.map_map, List.map_map]
  have : ∀ c ∈ t, (((fun c => if c = 8211 ∨ c = 8212 then 45 else c) ∘
      (fun c => if c = 8218 then 39 else c)) ∘
      (fun c => if c = 34 ∨ c = 8222 then 34 else c)) c = id c := by
    intro c hc
    obtain ⟨h1, h2, h3, h4⟩ := hcls c hc
    simp only [Function.comp_apply, id]
    have hq : (if c = 34 ∨ c = 8222 then 34 else c) = c := by
      split_ifs with h
      · rcases h with h | h
        · omega
        · exact absurd h h1
      · rfl
    rw [hq, if_neg h2, if_neg (not_or.mpr ⟨h3, h4⟩)]
  rw [List.map_congr_left this]
  exact List.map_id' t

theorem normalize_basic_idem (t : Text) :
    normalize_basic (normalize_basic t) = normalize_basic t :=
  normalize_basic_fixed (basicClean_normalize_basic t)

theorem mulQ_eq (a b : ℚ) : mulQ a b = a * b := by
  rw [mulQ, Rat.mkRat_eq_div]
  push_cast
  rw [← div_mul_div_comm, Rat.num_div_den, Rat.num_div_den]

theorem subQ_eq (a b : ℚ) : subQ a b = a - b := by
  rw [subQ, Rat.mkRat_eq_div]
  push_cast
  have ha : ((a.den : ℚ)) ≠ 0 := by
    exact_mod_cast Nat.cast_ne_zero.mpr a.den_nz
  have hb : ((b.den : ℚ)) ≠ 0 := by
    exact_mod_cast Nat.cast_ne_zero.mpr b.den_nz
  rw [eq_comm]
  conv_lhs => rw [← Rat.num_div_den a, ← Rat.num_div_den b]
  rw [div_sub_div _ _ ha hb]
  congr 1
  ring

theorem divNatQ_eq (a b : Nat) : divNatQ a b = (a : ℚ) / (b : ℚ) := by
  rw [divNatQ, Rat.mkRat_eq_div]
  push_cast
  rfl

theorem lookupAssoc_nil {α β : Type} [DecidableEq α] (k : α) :
    lookupAssoc ([] : List (α × β)) k = none := rfl

theorem lookupAssoc_cons {α β : Type} [DecidableEq α] (a : α) (b : β)
    (l : List (α × β)) (k : α) :
    lookupAssoc ((a, b) :: l) k = if a = k then some b else lookupAssoc l k := by
  unfold lookupAssoc
  by_cases h : a = k
  · rw [List.find?_cons_of_pos _ (by simpa using h), if_pos h]
    rfl
  · rw [List.find?_cons_of_neg _ (by simpa using h), if_neg h]

theorem updAssoc_nil {α β : Type} [DecidableEq α] (dflt : β) (k : α) (f : β → β) :
    updAssoc dflt ([] : List (α × β)) k f = [(k, f dflt)] := rfl

theorem updAssoc_cons {α β : Type} [DecidableEq α] (dflt : β) (a : α) (b : β)
    (l : List (α × β)) (k : α) (f : β → β) :
    updAssoc dflt ((a, b) :: l) k f =
      if a = k then (a, f b) :: l else (a, b) :: updAssoc dflt l k f := rfl

theorem lookup_updAssoc_self {α β : Type} [DecidableEq α] (dflt : β) :
    ∀ (l : List (α × β)) (k : α) (f : β → β),
      lookupAssoc (updAssoc dflt l k f) k = some (f ((lookupAssoc l k).getD dflt)) := by
  intro l
  induction l with
  | nil =>
      intro k f
      rw [updAssoc_nil, lookupAssoc_cons, lookupAssoc_nil, if_pos rfl]
      rfl
  | cons p rest ih =>
      intro k f
      obtain ⟨a, b⟩ := p
      rw [updAssoc_cons]
      by_cases hak : a = k
      · rw [if_pos hak, lookupAssoc_cons, if_pos hak, lookupAssoc_cons, if_pos hak]
        rfl
      · rw [if_neg hak, lookupAssoc_cons, if_neg hak, ih, lookupAssoc_cons, if_neg hak]

theorem lookup_updAssoc_ne {α β : Type} [DecidableEq α] (dflt : β) :
    ∀ (l : List (α × β)) (k : α) (f : β → β) (k2 : α), k ≠ k2 →
      lookupAssoc (updAssoc dflt l k f) k2 = lookupAssoc l k2 := by
  intro l
  induction l with
  | nil =>
      intro k f k2 hne
      rw [updAssoc_nil, lookupAssoc_cons, lookupAssoc_nil, if_neg hne]
  | cons p rest ih =>
      intro k f k2 hne
      obtain ⟨a, b⟩ := p
      rw [updAssoc_cons]
      by_cases hak : a = k
      · rw [if_pos hak, lookupAssoc_cons, lookupAssoc_cons,
          if_neg (hak ▸ hne), if_neg (hak ▸ hne)]
      · rw [if_neg hak, lookupAssoc_cons, ih _ _ _ hne, lookupAssoc_cons]

theorem keysOf_cons {α β : Type} (a : α) (b : β) (l : List (α × β)) :
    keysOf ((a, b) :: l) = a :: keysOf l := rfl

theorem keysOf_updAssoc {α β : Type} [DecidableEq α] (dflt : β) :
    ∀ (l : List (α × β)) (k : α) (f : β → β),
      keysOf (updAssoc dflt l k f) =
        if k ∈ keysOf l then keysOf l else keysOf l ++ [k] := by
  intro l
  induction l with
  | nil =>
      intro k f
      simp [updAssoc_nil, keysOf]
  | cons p rest ih =>
      intro k f
      obtain ⟨a, b⟩ := p
      rw [updAssoc_cons]
      by_cases hak : a = k
      · rw [if_pos hak, keysOf_cons, keysOf_cons,
          if_pos (List.mem_cons.mpr (Or.inl hak.symm))]
      · rw [if_neg hak, keysOf_cons, ih, keysOf_cons]
        by_cases hk : k ∈ keysOf rest
        · rw [if_pos hk, if_pos (List.mem_cons_of_mem a hk)]
        · rw [if_neg hk,
            if_neg (by
              intro hcon
              rcases List.mem_cons.mp hcon with h | h
              · exact hak h.symm
              · exact hk h)]
          simp

theorem mem_keysOf_updAssoc {α β : Type} [DecidableEq α] (dflt : β)
    (l : List (α × β)) (k : α) (f : β → β) (x : α) :
    x ∈ keysOf (updAssoc dflt l k f) ↔ x ∈ keysOf l ∨ x = k := by
  rw [keysOf_updAssoc]
  by_cases hk : k ∈ keysOf l
  · rw [if_pos hk]
    constructor
    · exact fun h => Or.inl h
    · rintro (h | rfl)
      · exact h
      · exact hk
  · rw [if_neg hk]
    simp

theorem nodup_keysOf_updAssoc {α β : Type} [DecidableEq α] (dflt : β)
    (l : List (α × β)) (k : α) (f : β → β) (h : (keysOf l).Nodup) :
    (keysOf (updAssoc dflt l k f)).Nodup := by
  rw [keysOf_updAssoc]
  by_cases hk : k ∈ keysOf l
  · rwa [if_pos hk]
  · rw [if_neg hk]
    simp [List.nodup_append, h, hk]

theorem lookupAssoc_isSome_iff {α β : Type} [DecidableEq α] :
    ∀ (l : List (α × β)) (k : α), (lookupAssoc l k).isSome = true ↔ k ∈ keysOf l := by
  intro l
  induction l with
  | nil => intro k; simp [lookupAssoc_nil, keysOf]
  | cons p rest ih =>
      intro k
      obtain ⟨a, b⟩ := p
      rw [lookupAssoc_cons]
      by_cases hak : a = k
      · simp [hak, keysOf]
      · rw [if_neg hak]
        simp only [keysOf, List.map_cons, List.mem_cons]
        rw [ih]
        simp only [keysOf]
        constructor
        · exact fun h => Or.inr h
        · rintro (h | h)
          · exact absurd h.symm hak
          · exact h

theorem mem_of_lookupAssoc_eq_some {α β : Type} [DecidableEq α] :
    ∀ (l : List (α × β)) (k : α) (v : β), lookupAssoc l k = some v → (k, v) ∈ l := by
  intro l
  induction l with
  | nil => intro k v h; simp [lookupAssoc_nil] at h
  | cons p rest ih =>
      intro k v h
      obtain ⟨a, b⟩ := p
      rw [lookupAssoc_cons] at h
      by_cases hak : a = k
      · rw [if_pos hak] at h
        subst hak
        simp at h
        subst h
        exact List.mem_cons_self _ _
      · rw [if_neg hak] at h
        exact List.mem_cons_of_mem _ (ih k v h)

theorem lookupAssoc_eq_some_of_mem {α β : Type} [DecidableEq α] :
    ∀ (l : List (α × β)) (k : α) (v : β), (keysOf l).Nodup → (k, v) ∈ l →
      lookupAssoc l k = some v := by
  intro l
  induction l with
  | nil => intro k v _ h; simp at h
  | cons p rest ih =>
      intro k v hnd hmem
      obtain ⟨a, b⟩ := p
      have hnd2 : (keysOf rest).Nodup := (List.nodup_cons.mp hnd).2
      have hnmem : a ∉ keysOf rest := (List.nodup_cons.mp hnd).1
      rw [lookupAssoc_cons]
      rcases List.mem_cons.mp hmem with h | h
      · injection h with h1 h2
        rw [if_pos h1.symm, h2]
      · by_cases hak : a = k
        · exfalso
          apply hnmem
          show a ∈ List.map Prod.fst rest
          exact List.mem_map.mpr ⟨(k, v), h, hak.symm⟩
        · rw [if_neg hak]
          exact ih k v hnd2 h

theorem count_addExample (d : FPData) (t : Text) : (addExample d t).count = d.count := by
  unfold addExample
  split_ifs <;> rfl

theorem count_addStyle (d : FPData) (st : String) : (addStyle d st).count = d.count := by
  unfold addStyle
  split_ifs <;> rfl

theorem countOf_procPara_fold :
    ∀ (ps : List NormPara) (st : List (Fingerprint × FPData)) (seen : List Fingerprint)
      (fp : Fingerprint),
      countOf (ps.foldl procPara (st, seen)).1 fp =
        countOf st fp +
          (if fp ∈ ps.map (fun q => q.fingerprint) ∧ fp ∉ seen then 1 else 0) := by
  intro ps
  induction ps with
  | nil =>
      intro st seen fp
      simp
  | cons p rest ih =>
      intro st seen fp
      rw [List.foldl_cons,
        show procPara (st, seen) p = (updAssoc emptyFPData st p.fingerprint
            (fun d => addStyle (addExample
              { d with count := d.count + (if p.fingerprint ∈ seen then 0 else 1) } p.text)
              p.style),
          if p.fingerprint ∈ seen then seen else seen ++ [p.fingerprint]) from rfl,
        ih]
      by_cases hfp : fp = p.fingerprint
      · subst hfp
        have hupd : countOf (updAssoc emptyFPData st p.fingerprint
            (fun d => addStyle (addExample
              { d with count := d.count + (if p.fingerprint ∈ seen then 0 else 1) } p.text)
              p.style)) p.fingerprint
            = countOf st p.fingerprint + (if p.fingerprint ∈ seen then 0 else 1) := by
          unfold countOf
          rw [lookup_updAssoc_self]
          simp [count_addStyle, count_addExample]
        rw [hupd]
        have h1 : p.fingerprint ∈
            (if p.fingerprint ∈ seen then seen else seen ++ [p.fingerprint]) := by
          split_ifs with h
          · exact h
          · simp
        rw [if_neg (show ¬(p.fingerprint ∈ List.map (fun q => q.fingerprint) rest ∧
              p.fingerprint ∉ (if p.fingerprint ∈ seen then seen else seen ++ [p.fingerprint]))
            from fun hc => hc.2 h1)]
        have h2 : p.fingerprint ∈ List.map (fun q => q.fingerprint) (p :: rest) := by
          rw [List.map_cons]
          exact List.mem_cons_self _ _
        by_cases hseen : p.fingerprint ∈ seen
        · rw [if_pos hseen,
            if_neg (show ¬(p.fingerprint ∈ List.map (fun q => q.fingerprint) (p :: rest) ∧
                p.fingerprint ∉ seen) from fun hc => hc.2 hseen)]
        · rw [if_neg hseen,
            if_pos (show p.fingerprint ∈ List.map (fun q => q.fingerprint) (p :: rest) ∧
                p.fingerprint ∉ seen from ⟨h2, hseen⟩)]
      · have hupd : countOf (updAssoc emptyFPData st p.fingerprint
            (fun d => addStyle (addExample
              { d with count := d.count + (if p.fingerprint ∈ seen then 0 else 1) } p.text)
              p.style)) fp = countOf st fp := by
          unfold countOf
          rw [lookup_updAssoc_ne _ _ _ _ _ (fun h => hfp h.symm)]
        rw [hupd]
        have hseen1 : (fp ∈ (if p.fingerprint ∈ seen then seen else seen ++ [p.fingerprint]))
            ↔ fp ∈ seen := by
          split_ifs with h
          · exact Iff.rfl
          · constructor
            · intro hx
              rcases List.mem_append.mp hx with hx | hx
              · exact hx
              · exact absurd (List.mem_singleton.mp hx) hfp
            · exact fun hx => List.mem_append.mpr (Or.inl hx)
        have hmem : (fp ∈ List.map (fun q => q.fingerprint) rest)
            ↔ fp ∈ List.map (fun q => q.fingerprint) (p :: rest) := by
          rw [List.map_cons]
          constructor
          · exact fun h => List.mem_cons_of_mem _ h
          · intro h
            rcases List.mem_cons.mp h with h | h
            · exact absurd h hfp
            · exact h
        rw [if_congr (and_congr hmem (not_congr hseen1)) rfl rfl]

theorem countOf_compute_fold :
    ∀ (profiles : List DocProfile) (st : List (Fingerprint × FPData)) (fp : Fingerprint),
      countOf (profiles.foldl procProfile st) fp =
        countOf st fp + profiles.countP (fun pr => decide (fp ∈ fpsOf pr)) := by
  intro profiles
  induction profiles with
  | nil =>
      intro st fp
      simp
  | cons pr prs ih =>
      intro st fp
      rw [List.foldl_cons, ih, List.countP_cons]
      unfold procProfile
      rw [countOf_procPara_fold]
      simp only [List.not_mem_nil, not_false_iff, and_true]
      have hfps : List.map (fun q => q.fingerprint) pr.paragraphs = fpsOf pr := rfl
      rw [hfps]
      by_cases h : fp ∈ fpsOf pr
      · rw [if_pos h, decide_eq_true h, if_pos rfl]
        omega
      · rw [if_neg h, decide_eq_false h, if_neg (by simp)]
        omega

/-- The classifier count of a fingerprint equals the number of documents
containing it: repeats inside one document are not double counted. -/
theorem countOf_compute (profiles : List DocProfile) (fp : Fingerprint) :
    countOf (compute_fingerprint_counts profiles) fp =
      profiles.countP (fun pr => decide (fp ∈ fpsOf pr)) := by
  unfold compute_fingerprint_counts
  rw [countOf_compute_fold]
  have h0 : countOf [] fp = 0 := rfl
  omega

theorem mem_keys_procPara_fold :
    ∀ (ps : List NormPara) (st : List (Fingerprint × FPData)) (seen : List Fingerprint)
      (fp : Fingerprint),
      fp ∈ keysOf (ps.foldl procPara (st, seen)).1 ↔
        fp ∈ keysOf st ∨ fp ∈ ps.map (fun q => q.fingerprint) := by
  intro ps
  induction ps with
  | nil =>
      intro st seen fp
      simp
  | cons p rest ih =>
      intro st seen fp
      rw [List.foldl_cons,
        show procPara (st, seen) p = (updAssoc emptyFPData st p.fingerprint
            (fun d => addStyle (addExample
              { d with count := d.count + (if p.fingerprint ∈ seen then 0 else 1) } p.text)
              p.style),
          if p.fingerprint ∈ seen then seen else seen ++ [p.fingerprint]) from rfl,
        ih, mem_keysOf_updAssoc, List.map_cons]
      constructor
      · rintro ((h | h) | h)
        · exact Or.inl h
        · exact Or.inr (h ▸ List.mem_cons_self _ _)
        · exact Or.inr (List.mem_cons_of_mem _ h)
      · rintro (h | h)
        · exact Or.inl (Or.inl h)
        · rcases List.mem_cons.mp h with h | h
          · exact Or.inl (Or.inr h)
          · exact Or.inr h

theorem mem_keys_compute_fold :
    ∀ (profiles : List DocProfile) (st : List (Fingerprint × FPData)) (fp : Fingerprint),
      fp ∈ keysOf (profiles.foldl procProfile st) ↔
        fp ∈ keysOf st ∨ ∃ pr ∈ profiles, fp ∈ fpsOf pr := by
  intro profiles
  induction profiles with
  | nil =>
      intro st fp
      simp
  | cons pr prs ih =>
      intro st fp
      rw [List.foldl_cons, ih]
      unfold procProfile
      rw [mem_keys_procPara_fold]
      have hfps : List.map (fun q => q.fingerprint) pr.paragraphs = fpsOf pr := rfl
      rw [hfps]
      constructor
      · rintro ((h | h) | ⟨pr2, hpr2, hfp2⟩)
        · exact Or.inl h
        · exact Or.inr ⟨pr, List.mem_cons_self _ _, h⟩
        · exact Or.inr ⟨pr2, List.mem_cons_of_mem _ hpr2, hfp2⟩
      · rintro (h | ⟨pr2, hpr2, hfp2⟩)
        · exact Or.inl (Or.inl h)
        · rcases List.mem_cons.mp hpr2 with h | h
          · exact Or.inl (Or.inr (h ▸ hfp2))
          · exact Or.inr ⟨pr2, h, hfp2⟩

/-- A fingerprint appears in the aggregated stats exactly when some document
contains it. -/
theorem mem_keys_compute (profiles : List DocProfile) (fp : Fingerprint) :
    fp ∈ keysOf (compute_fingerprint_counts profiles) ↔
      ∃ pr ∈ profiles, fp ∈ fpsOf pr := by
  unfold compute_fingerprint_counts
  rw [mem_keys_compute_fold]
  simp [keysOf]

theorem nodup_keys_procPara_fold :
    ∀ (ps : List NormPara) (st : List (Fingerprint × FPData)) (seen : List Fingerprint),
      (keysOf st).Nodup → (keysOf (ps.foldl procPara (st, seen)).1).Nodup := by
  intro ps
  induction ps with
  | nil => intro st seen h; exact h
  | cons p rest ih =>
      intro st seen h
      rw [List.foldl_cons]
      exact ih _ _ (nodup_keysOf_updAssoc _ _ _ _ h)

/-- The aggregated stats have pairwise distinct fingerprints (dict keys). -/
theorem nodup_keys_compute (profiles : List DocProfile) :
    (keysOf (compute_fingerprint_counts profiles)).Nodup := by
  unfold compute_fingerprint_counts
  suffices h : ∀ (st : List (Fingerprint × FPData)), (keysOf st).Nodup →
      (keysOf (profiles.foldl procProfile st)).Nodup by
    exact h [] (by simp [keysOf])
  induction profiles with
  | nil => intro st h; exact h
  | cons pr prs ih =>
      intro st h
      rw [List.foldl_cons]
      exact ih _ (nodup_keys_procPara_fold _ _ _ h)

theorem examples_update_ne_nil (d : FPData) (t : Text) (st : String) (i : Nat) :
    (addStyle (addExample { d with count := d.count + i } t) st).examples ≠ [] := by
  have h1 : (addExample { d with count := d.count + i } t).examples ≠ [] := by
    unfold addExample
    by_cases hd : d.examples = []
    · rw [if_pos (by simp [hd])]
      simp
    · split_ifs with h
      · simp
      · simpa using hd
  unfold addStyle
  split_ifs <;> simpa using h1

theorem examples_ne_nil_procPara_fold :
    ∀ (ps : List NormPara) (st : List (Fingerprint × FPData)) (seen : List Fingerprint),
      (∀ fp d, lookupAssoc st fp = some d → d.examples ≠ []) →
      ∀ fp d, lookupAssoc (ps.foldl procPara (st, seen)).1 fp = some d → d.examples ≠ [] := by
  intro ps
  induction ps with
  | nil => intro st seen h; exact h
  | cons p rest ih =>
      intro st seen h
      rw [List.foldl_cons,
        show procPara (st, seen) p = (updAssoc emptyFPData st p.fingerprint
            (fun d => addStyle (addExample
              { d with count := d.count + (if p.fingerprint ∈ seen then 0 else 1) } p.text)
              p.style),
          if p.fingerprint ∈ seen then seen else seen ++ [p.fingerprint]) from rfl]
      refine ih _ _ ?_
      intro fp d hl
      by_cases hfp : p.fingerprint = fp
      · rw [← hfp, lookup_updAssoc_self] at hl
        injection hl with hl
        rw [← hl]
        exact examples_update_ne_nil _ _ _ _
      · rw [lookup_updAssoc_ne _ _ _ _ _ hfp] at hl
        exact h fp d hl

/-- Every entry of the aggregated stats has at least one example text, so the
`examples[0]` access in `classify_paragraphs` never fails. -/
theorem examples_ne_nil_compute (profiles : List DocProfile) (fp : Fingerprint)
    (d : FPData) (h : lookupAssoc (compute_fingerprint_counts profiles) fp = some d) :
    d.examples ≠ [] := by
  unfold compute_fingerprint_counts at h
  revert h
  suffices hgen : ∀ (st : List (Fingerprint × FPData)),
      (∀ fp2 d2, lookupAssoc st fp2 = some d2 → d2.examples ≠ []) →
      ∀ fp2 d2, lookupAssoc (profiles.foldl procProfile st) fp2 = some d2 →
        d2.examples ≠ [] by
    intro h
    exact hgen [] (by intro fp2 d2 hx; rw [lookupAssoc_nil] at hx; exact absurd hx (by simp))
      fp d h
  induction profiles with
  | nil => intro st h; exact h
  | cons pr prs ih =>
      intro st h
      rw [List.foldl_cons]
      exact ih _ (examples_ne_nil_procPara_fold _ _ _ h)

/-!
Characterization of `classify_paragraphs`.
-/

theorem classify_fold (m : ℤ) (total : Nat) :
    ∀ (l : List (Fingerprint × FPData)) (acc : Classification),
      (l.foldl (fun acc kv =>
        if isFixedEntry kv.2 m then
          { acc with fixed := acc.fixed ++ [(kv.1, mkClsEntry kv.1 kv.2 total)] }
        else
          { acc with variable_ := acc.variable_ ++ [(kv.1, mkClsEntry kv.1 kv.2 total)] })
        acc) =
      ⟨acc.fixed ++ (l.filter (fun kv => isFixedEntry kv.2 m)).map
          (fun kv => (kv.1, mkClsEntry kv.1 kv.2 total)),
       acc.variable_ ++ (l.filter (fun kv => !isFixedEntry kv.2 m)).map
          (fun kv => (kv.1, mkClsEntry kv.1 kv.2 total))⟩ := by
  intro l
  induction l with
  | nil => intro acc; simp
  | cons kv rest ih =>
      intro acc
      rw [List.foldl_cons]
      by_cases h : isFixedEntry kv.2 m = true
      · rw [if_pos h, ih, List.filter_cons_of_pos (by simpa using h),
          List.filter_cons_of_neg (by simp [h]), List.map_cons]
        simp [List.append_assoc]
      · have hf : isFixedEntry kv.2 m = false := Bool.eq_false_iff.mpr h
        rw [if_neg h, ih, List.filter_cons_of_neg (by simp [hf]),
          List.filter_cons_of_pos (by simp [hf]), List.map_cons]
        simp [List.append_assoc]

theorem classify_paragraphs_eq (stats : List (Fingerprint × FPData)) (total : Nat) (t : ℚ) :
    classify_paragraphs stats total t =
      ⟨(stats.filter (fun kv => isFixedEntry kv.2 (truncQ (mulQ (total : ℚ) t)))).map
          (fun kv => (kv.1, mkClsEntry kv.1 kv.2 total)),
       (stats.filter (fun kv => !isFixedEntry kv.2 (truncQ (mulQ (total : ℚ) t)))).map
          (fun kv => (kv.1, mkClsEntry kv.1 kv.2 total))⟩ := by
  unfold classify_paragraphs
  rw [classify_fold]
  simp

theorem keysOf_map_entry (l : List (Fingerprint × FPData)) (total : Nat) :
    keysOf (l.map (fun kv => (kv.1, mkClsEntry kv.1 kv.2 total))) =
      l.map (fun kv => kv.1) := by
  unfold keysOf
  rw [List.map_map]
  rfl

theorem mem_keys_classify_fixed (stats : List (Fingerprint × FPData)) (total : Nat)
    (t : ℚ) (fp : Fingerprint) :
    fp ∈ keysOf (classify_paragraphs stats total t).fixed ↔
      ∃ d, (fp, d) ∈ stats ∧
        isFixedEntry d (truncQ (mulQ (total : ℚ) t)) = true := by
  rw [classify_paragraphs_eq]
  show fp ∈ keysOf (List.map _ (List.filter _ stats)) ↔ _
  rw [keysOf_map_entry, List.mem_map]
  constructor
  · rintro ⟨kv, hkv, hfst⟩
    rw [List.mem_filter] at hkv
    refine ⟨kv.2, ?_, hkv.2⟩
    have heta : (fp, kv.2) = kv := by
      rw [← hfst]
    rw [heta]
    exact hkv.1
  · rintro ⟨d, hd, hfix⟩
    refine ⟨(fp, d), ?_, rfl⟩
    rw [List.mem_filter]
    exact ⟨hd, hfix⟩

theorem mem_keys_classify_variable (stats : List (Fingerprint × FPData)) (total : Nat)
    (t : ℚ) (fp : Fingerprint) :
    fp ∈ keysOf (classify_paragraphs stats total t).variable_ ↔
      ∃ d, (fp, d) ∈ stats ∧
        isFixedEntry d (truncQ (mulQ (total : ℚ) t)) = false := by
  have hbool : ∀ b : Bool, ((!b) = true) ↔ (b = false) := by decide
  rw [classify_paragraphs_eq]
  show fp ∈ keysOf (List.map _ (List.filter _ stats)) ↔ _
  rw [keysOf_map_entry, List.mem_map]
  constructor
  · rintro ⟨kv, hkv, hfst⟩
    rw [List.mem_filter] at hkv
    refine ⟨kv.2, ?_, (hbool _).mp hkv.2⟩
    have heta : (fp, kv.2) = kv := by
      rw [← hfst]
    rw [heta]
    exact hkv.1
  · rintro ⟨d, hd, hfix⟩
    refine ⟨(fp, d), ?_, rfl⟩
    rw [List.mem_filter]
    exact ⟨hd, (hbool _).mpr hfix⟩

/-!
Monotonicity of the truncated threshold.
-/

theorem ratFloor_eq_intFloor (x : ℚ) : Rat.floor x = ⌊x⌋ := rfl

theorem truncQ_mono {q r : ℚ} (h : q ≤ r) : truncQ q ≤ truncQ r := by
  unfold truncQ
  simp only [ratFloor_eq_intFloor]
  split_ifs with h1 h2 h2
  · exact Int.floor_mono h
  · exact absurd (le_trans h1 h) h2
  · have hq : (0 : ℚ) ≤ -q := neg_nonneg.mpr (le_of_lt (lt_of_not_le h1))
    have ha : (0 : ℤ) ≤ ⌊-q⌋ := Int.le_floor.mpr (by exact_mod_cast hq)
    have hb : (0 : ℤ) ≤ ⌊r⌋ := Int.le_floor.mpr (by exact_mod_cast h2)
    omega
  · have hrq : -r ≤ -q := neg_le_neg h
    have hf : ⌊-r⌋ ≤ ⌊-q⌋ := Int.floor_mono hrq
    omega

theorem minCount_mono (n : Nat) {t1 t2 : ℚ} (h : t1 ≤ t2) :
    truncQ (mulQ (n : ℚ) t1) ≤ truncQ (mulQ (n : ℚ) t2) := by
  apply truncQ_mono
  rw [mulQ_eq, mulQ_eq]
  exact mul_le_mul_of_nonneg_left h (by positivity)

theorem isFixedEntry_mono {d : FPData} {m1 m2 : ℤ} (hm : m1 ≤ m2)
    (h : isFixedEntry d m2 = true) : isFixedEntry d m1 = true := by
  unfold isFixedEntry at *
  simp only [Bool.and_eq_true, decide_eq_true_eq, ge_iff_le] at *
  exact ⟨le_trans hm h.1, h.2⟩

/-!
Stable sort membership.
-/

theorem mem_insSorted {α : Type} (le : α → α → Bool) (x a : α) :
    ∀ (l : List α), a ∈ insSorted le x l ↔ a = x ∨ a ∈ l := by
  intro l
  induction l with
  | nil => simp [insSorted]
  | cons y ys ih =>
      unfold insSorted
      by_cases h : le y x = true
      · rw [if_pos h]
        simp only [List.mem_cons, ih]
        tauto
      · rw [if_neg h]
        simp only [List.mem_cons]

theorem mem_stableSort_aux {α : Type} (le : α → α → Bool) (a : α) :
    ∀ (l acc : List α),
      a ∈ l.foldl (fun acc x => insSorted le x acc) acc ↔ a ∈ acc ∨ a ∈ l := by
  intro l
  induction l with
  | nil => intro acc; simp
  | cons x xs ih =>
      intro acc
      rw [List.foldl_cons, ih, mem_insSorted]
      simp only [List.mem_cons]
      tauto

theorem mem_stableSort {α : Type} (le : α → α → Bool) (a : α) (l : List α) :
    a ∈ stableSort le l ↔ a ∈ l := by
  unfold stableSort
  rw [mem_stableSort_aux]
  simp

theorem foldl_congr_fun {α β : Type} {f g : β → α → β} (h : ∀ b a, f b a = g b a) :
    ∀ (l : List α) (init : β), l.foldl f init = l.foldl g init := by
  intro l
  induction l with
  | nil => intro init; rfl
  | cons x xs ih =>
      intro init
      rw [List.foldl_cons, List.foldl_cons, h, ih]

theorem foldl_filterMap {α β γ : Type} (g : α → Option β) (f : γ → β → γ) :
    ∀ (l : List α) (init : γ),
      (l.filterMap g).foldl f init =
        l.foldl (fun acc x => match g x with | some y => f acc y | none => acc) init := by
  intro l
  induction l with
  | nil => intro init; rfl
  | cons x xs ih =>
      intro init
      cases hx : g x with
      | none =>
          rw [List.filterMap_cons, hx, List.foldl_cons, hx]
          exact ih init
      | some y =>
          rw [List.filterMap_cons, hx, List.foldl_cons, List.foldl_cons, hx]
          exact ih (f init y)

theorem foldl_flatMap {α β γ : Type} (g : α → List β) (f : γ → β → γ) :
    ∀ (l : List α) (init : γ),
      (l.flatMap g).foldl f init = l.foldl (fun acc x => (g x).foldl f acc) init := by
  intro l
  induction l with
  | nil => intro init; rfl
  | cons x xs ih =>
      intro init
      rw [List.flatMap_cons, List.foldl_append, List.foldl_cons, ih]

theorem procSeqProfile_eq (fx : List Fingerprint) (sizes : List Nat)
    (st : List (List Fingerprint × SeqData)) (pr : DocProfile) :
    procSeqProfile fx sizes st pr =
      (pairsOfProfile fx sizes pr).foldl (fun st ke => bumpSeq st ke.1 ke.2) st := by
  unfold procSeqProfile pairsOfProfile
  rw [foldl_flatMap]
  apply foldl_congr_fun ?_ sizes st
  intro st2 n
  rw [foldl_filterMap]
  apply foldl_congr_fun ?_ _ st2
  intro st3 i
  unfold genPair fpsOf
  cases hseq : ((List.map (fun p => p.fingerprint) pr.paragraphs).drop i).take n with
  | nil => simp [hseq]
  | cons s0 rest =>
      simp only [hseq]
      by_cases hs0 : s0 ∈ fx
      · simp [hs0]
      · simp [hs0]

theorem seqCounts_eq (profiles : List DocProfile) (fx : List Fingerprint)
    (sizes : List Nat) :
    profiles.foldl (procSeqProfile fx sizes) [] =
      (allPairs profiles fx sizes).foldl (fun st ke => bumpSeq st ke.1 ke.2) [] := by
  unfold allPairs
  rw [foldl_flatMap]
  exact foldl_congr_fun (fun st pr => procSeqProfile_eq fx sizes st pr) profiles []

theorem seqCountOf_bump (st : List (List Fingerprint × SeqData))
    (key : List Fingerprint) (ex : List Text) (key2 : List Fingerprint) :
    seqCountOf (bumpSeq st key ex) key2 =
      seqCountOf st key2 + (if key = key2 then 1 else 0) := by
  unfold seqCountOf bumpSeq
  by_cases h : key = key2
  · subst h
    rw [lookup_updAssoc_self, if_pos rfl]
    simp
  · rw [lookup_updAssoc_ne _ _ _ _ _ h, if_neg h]
    rfl

theorem seqCountOf_foldBump :
    ∀ (pairs : List (List Fingerprint × List Text))
      (st : List (List Fingerprint × SeqData)) (key : List Fingerprint),
      seqCountOf (pairs.foldl (fun st ke => bumpSeq st ke.1 ke.2) st) key =
        seqCountOf st key + pairs.countP (fun ke => decide (ke.1 = key)) := by
  intro pairs
  induction pairs with
  | nil => intro st key; simp
  | cons ke rest ih =>
      intro st key
      rw [List.foldl_cons, ih, seqCountOf_bump, List.countP_cons]
      by_cases h : ke.1 = key
      · rw [if_pos h, decide_eq_true h, if_pos rfl]
        omega
      · rw [if_neg h, decide_eq_false h, if_neg (by simp)]
        omega

theorem mem_keys_foldBump :
    ∀ (pairs : List (List Fingerprint × List Text))
      (st : List (List Fingerprint × SeqData)) (key : List Fingerprint),
      key ∈ keysOf (pairs.foldl (fun st ke => bumpSeq st ke.1 ke.2) st) ↔
        key ∈ keysOf st ∨ ∃ ke ∈ pairs, ke.1 = key := by
  intro pairs
  induction pairs with
  | nil => intro st key; simp
  | cons ke rest ih =>
      intro st key
      rw [List.foldl_cons, ih]
      unfold bumpSeq
      rw [mem_keysOf_updAssoc]
      constructor
      · rintro ((h | h) | ⟨ke2, hke2, hkey⟩)
        · exact Or.inl h
        · exact Or.inr ⟨ke, List.mem_cons_self _ _, h.symm⟩
        · exact Or.inr ⟨ke2, List.mem_cons_of_mem _ hke2, hkey⟩
      · rintro (h | ⟨ke2, hke2, hkey⟩)
        · exact Or.inl (Or.inl h)
        · rcases List.mem_cons.mp hke2 with h2 | h2
          · exact Or.inl (Or.inr (by rw [← hkey, h2]))
          · exact Or.inr ⟨ke2, h2, hkey⟩

theorem nodup_keys_foldBump :
    ∀ (pairs : List (List Fingerprint × List Text))
      (st : List (List Fingerprint × SeqData)),
      (keysOf st).Nodup →
      (keysOf (pairs.foldl (fun st ke => bumpSeq st ke.1 ke.2) st)).Nodup := by
  intro pairs
  induction pairs with
  | nil => intro st h; exact h
  | cons ke rest ih =>
      intro st h
      rw [List.foldl_cons]
      exact ih _ (nodup_keysOf_updAssoc _ _ _ _ h)

theorem seqCountOf_counts (profiles : List DocProfile) (fx : List Fingerprint)
    (sizes : List Nat) (seq : List Fingerprint) :
    seqCountOf (profiles.foldl (procSeqProfile fx sizes) []) seq =
      ngramOccCount profiles fx sizes seq := by
  rw [seqCounts_eq, seqCountOf_foldBump]
  have h0 : seqCountOf [] seq = 0 := rfl
  rw [h0, Nat.zero_add]
  unfold ngramOccCount allNgrams
  rw [List.countP_map]
  rfl

theorem mem_keys_counts (profiles : List DocProfile) (fx : List Fingerprint)
    (sizes : List Nat) (seq : List Fingerprint) :
    seq ∈ keysOf (profiles.foldl (procSeqProfile fx sizes) []) ↔
      1 ≤ ngramOccCount profiles fx sizes seq := by
  rw [seqCounts_eq, mem_keys_foldBump]
  have hocc : ngramOccCount profiles fx sizes seq =
      (allPairs profiles fx sizes).countP (fun ke => decide (ke.1 = seq)) := by
    unfold ngramOccCount allNgrams
    rw [List.countP_map]
    rfl
  rw [hocc]
  constructor
  · rintro (h | ⟨ke, hke, hkey⟩)
    · simp [keysOf] at h
    · exact Nat.succ_le_of_lt (List.countP_pos_iff.mpr ⟨ke, hke, decide_eq_true hkey⟩)
  · intro h
    rcases List.countP_pos_iff.mp (Nat.lt_of_lt_of_le Nat.zero_lt_one h) with ⟨ke, hke, hp⟩
    exact Or.inr ⟨ke, hke, of_decide_eq_true hp⟩

theorem detect_sequences_def (profiles : List DocProfile) (fx : List Fingerprint)
    (sizes : List Nat) :
    detect_sequences profiles fx sizes =
      stableSort seqKeyLE
        (((profiles.foldl (procSeqProfile fx sizes) []).filter
            (fun kv => decide ((kv.2.count : ℤ) ≥
              truncQ (mulQ (profiles.length : ℚ) boilerplate_threshold)))).map
          (mkSeqEntry profiles.length)) := rfl

/-!
The analyzer never places a patient-specific block among the common blocks.
-/

theorem common_blocks_not_patient (docs : List DocData) (res : AnalysisResult)
    (h : analyze_documents docs = Except.ok res) (cb : CommonBlock)
    (hcb : cb ∈ res.common_blocks) :
    ∃ d0 b, docs.head? = some d0 ∧ b ∈ d0.body ∧ b.is_patient_specific = false ∧
      cb.fingerprint = b.fingerprint ∧ cb.text = b.raw_text := by
  match docs with
  | [] => exact absurd h (by simp [analyze_documents])
  | [d1] => exact absurd h (by simp [analyze_documents])
  | d1 :: d2 :: rest =>
      unfold analyze_documents at h
      rw [Except.ok.injEq] at h
      subst h
      rcases List.mem_filterMap.mp hcb with ⟨b, hb, hfm⟩
      by_cases hin : b.fingerprint ∈
          (match (d1 :: d2 :: rest).map (fun d => d.fingerprints) with
            | [] => ([] : List Text)
            | s :: rest2 => rest2.foldl (fun acc t => acc.filter (fun fp => fp ∈ t)) s)
      · rw [if_pos hin] at hfm
        by_cases hps : b.is_patient_specific = true
        · rw [if_pos hps] at hfm
          exact absurd hfm (by simp)
        · rw [if_neg hps] at hfm
          have hcb2 : cb = ⟨b.raw_text, b.style, b.fingerprint⟩ := by
            injection hfm with hfm2
            exact hfm2.symm
          exact ⟨d1, b, rfl, hb, Bool.eq_false_iff.mpr hps, by rw [hcb2], by rw [hcb2]⟩
      · rw [if_neg hin] at hfm
        exact absurd hfm (by simp)

/-!
Further bookkeeping lemmas used by the claim theorems.
-/

theorem assoc_value_unique {α β : Type} [DecidableEq α] (l : List (α × β)) (k : α)
    (v1 v2 : β) (hnd : (keysOf l).Nodup) (h1 : (k, v1) ∈ l) (h2 : (k, v2) ∈ l) :
    v1 = v2 := by
  have e1 := lookupAssoc_eq_some_of_mem l k v1 hnd h1
  have e2 := lookupAssoc_eq_some_of_mem l k v2 hnd h2
  rw [e1] at e2
  injection e2

theorem countOf_of_mem (stats : List (Fingerprint × FPData)) (fp : Fingerprint)
    (d : FPData) (hnd : (keysOf stats).Nodup) (hd : (fp, d) ∈ stats) :
    countOf stats fp = d.count := by
  unfold countOf
  rw [lookupAssoc_eq_some_of_mem stats fp d hnd hd]
  rfl

theorem exists_data_of_mem_keys {α β : Type} [DecidableEq α] (l : List (α × β)) (k : α)
    (h : k ∈ keysOf l) : ∃ v, (k, v) ∈ l := by
  rcases List.mem_map.mp h with ⟨kv, hkv, hfst⟩
  refine ⟨kv.2, ?_⟩
  have heta : (k, kv.2) = kv := by
    rw [← hfst]
  rw [heta]
  exact hkv

theorem entry_of_mem_classify (stats : List (Fingerprint × FPData)) (total : Nat)
    (t : ℚ) (fp : Fingerprint) (e : ClsEntry)
    (h : (fp, e) ∈ (classify_paragraphs stats total t).fixed ∨
      (fp, e) ∈ (classify_paragraphs stats total t).variable_) :
    ∃ d, (fp, d) ∈ stats ∧ e = mkClsEntry fp d total := by
  rw [classify_paragraphs_eq] at h
  rcases h with h | h <;>
  · rcases List.mem_map.mp h with ⟨kv, hkv, heq⟩
    rw [List.mem_filter] at hkv
    injection heq with h1 h2
    refine ⟨kv.2, ?_, by rw [← h2, h1]⟩
    have heta : (fp, kv.2) = kv := by
      rw [← h1]
    rw [heta]
    exact hkv.1

theorem mem_classify_of_mem (stats : List (Fingerprint × FPData)) (total : Nat)
    (t : ℚ) (fp : Fingerprint) (d : FPData) (hd : (fp, d) ∈ stats) :
    (fp, mkClsEntry fp d total) ∈ (classify_paragraphs stats total t).fixed ∨
      (fp, mkClsEntry fp d total) ∈ (classify_paragraphs stats total t).variable_ := by
  rw [classify_paragraphs_eq]
  by_cases hf : isFixedEntry d (truncQ (mulQ (total : ℚ) t)) = true
  · left
    show (fp, mkClsEntry fp d total) ∈ List.map _ (List.filter _ stats)
    exact List.mem_map.mpr ⟨(fp, d), List.mem_filter.mpr ⟨hd, hf⟩, rfl⟩
  · right
    show (fp, mkClsEntry fp d total) ∈ List.map _ (List.filter _ stats)
    refine List.mem_map.mpr ⟨(fp, d), List.mem_filter.mpr ⟨hd, ?_⟩, rfl⟩
    simp [Bool.eq_false_iff.mpr hf]

theorem countOf_le_total (profiles : List DocProfile) (fp : Fingerprint) :
    countOf (compute_fingerprint_counts profiles) fp ≤ profiles.length := by
  rw [countOf_compute]
  exact List.countP_le_length _

/-!
The claims.
-/

/-- C1: the classifier marks a fingerprint FIXED iff its deduplicated
document count reaches the truncated threshold
`int(total_documents * threshold)` (a floor for nonnegative values, not a
ceiling as the specification states) and its first example text is at least
`min_text_length` long.  This is the amended claim; `claim_C1_cex` refutes
the ceiling reading. -/
theorem claim_C1_floor (stats : List (Fingerprint × FPData)) (total : Nat) (t : ℚ)
    (fp : Fingerprint) (d : FPData) (hnd : (keysOf stats).Nodup)
    (hd : (fp, d) ∈ stats) :
    fp ∈ keysOf (classify_paragraphs stats total t).fixed ↔
      (truncQ (mulQ (total : ℚ) t) ≤ (d.count : ℤ) ∧
        min_text_length ≤ firstExampleLen d) := by
  rw [mem_keys_classify_fixed]
  constructor
  · rintro ⟨d2, hd2, hfix⟩
    have hdd : d2 = d := assoc_value_unique stats fp d2 d hnd hd2 hd
    subst hdd
    unfold isFixedEntry at hfix
    simp only [Bool.and_eq_true, decide_eq_true_eq, ge_iff_le] at hfix
    exact hfix
  · rintro ⟨h1, h2⟩
    refine ⟨d, hd, ?_⟩
    unfold isFixedEntry
    simp only [Bool.and_eq_true, decide_eq_true_eq, ge_iff_le]
    exact ⟨h1, h2⟩

/-- C1 witness: a disclaimer seen in all 5 of 5 documents is FIXED at the
default threshold. -/
theorem claim_C1_witness :
    (keysOf c1stats5).Nodup ∧ (c1fp, c1data5) ∈ c1stats5 ∧
      (c1fp ∈ keysOf (classify_paragraphs c1stats5 5 boilerplate_threshold).fixed ↔
        (truncQ (mulQ ((5 : Nat) : ℚ) boilerplate_threshold) ≤ (c1data5.count : ℤ) ∧
          min_text_length ≤ firstExampleLen c1data5)) :=
  ⟨by decide, by decide,
    claim_C1_floor c1stats5 5 boilerplate_threshold c1fp c1data5 (by decide) (by decide)⟩

/-- C1 counterexample: with 5 documents and the default threshold 0.85, a
fingerprint present in exactly 4 of 5 documents is classified FIXED, because
`int(5 * 0.85) = 4`, although `4 < ceil(5 * 0.85) = 5`: the claimed ceiling
rule and the claimed VARIABLE outcome of scenario B are both refuted. -/
theorem claim_C1_cex :
    c1fp ∈ keysOf (classify_paragraphs c1stats4 5 boilerplate_threshold).fixed ∧
      ¬ (⌈(5 : ℚ) * boilerplate_threshold⌉ ≤ (4 : ℤ)) := by
  constructor
  · decide
  · rw [not_le]
    apply Int.lt_ceil.mpr
    rw [← mulQ_eq]
    decide

/-- C2: every common block reported by the analyzer stems from a reference
paragraph that the patient-specific heuristic left unflagged; the exclusion
of case-specific content happens in the analyzer script, not in the
extractor classifier.  This is the amended claim; `claim_C2_cex` shows the
extractor classifier itself promotes a universally flagged fingerprint to
FIXED. -/
theorem claim_C2_analyzer (docs : List DocData) (res : AnalysisResult)
    (h : analyze_documents docs = Except.ok res) (cb : CommonBlock)
    (hcb : cb ∈ res.common_blocks) :
    ∃ d0 b, docs.head? = some d0 ∧ b ∈ d0.body ∧ b.is_patient_specific = false ∧
      cb.fingerprint = b.fingerprint ∧ cb.text = b.raw_text :=
  common_blocks_not_patient docs res h cb hcb

/-- C2 witness: two identical one-paragraph documents yield one common
block, and it traces back to a non-patient-specific reference paragraph. -/
theorem claim_C2_witness :
    analyze_documents [c2wDoc, c2wDoc] = Except.ok c2wRes ∧
      c2wCb ∈ c2wRes.common_blocks ∧
      (∃ d0 b, ([c2wDoc, c2wDoc] : List DocData).head? = some d0 ∧ b ∈ d0.body ∧
        b.is_patient_specific = false ∧ c2wCb.fingerprint = b.fingerprint ∧
        c2wCb.text = b.raw_text) :=
  ⟨by rfl, by decide,
    claim_C2_analyzer [c2wDoc, c2wDoc] c2wRes (by rfl) c2wCb (by decide)⟩

/-- C2 counterexample: the sentence "Herr Schmidt, geb. 03.05.1970" is
flagged patient-specific by the heuristic, yet when it recurs in 5 of 5
documents the extractor classifier places its fingerprint in
`Classification.fixed`: `classify_paragraphs` never consults the flag. -/
theorem claim_C2_cex :
    is_likely_patient_specific (pf_normalize_text c2text) = true ∧
      c2fp ∈ keysOf (classify_paragraphs (compute_fingerprint_counts c2profiles)
        c2profiles.length boilerplate_threshold).fixed := by
  exact ⟨by decide, by decide⟩

/-- C3: the analyzer script aborts with the error "Need at least 2 documents
to find common content" whenever fewer than two documents are available.
This is the amended claim: the abort lives in `analyze_documents` of the
analyzer script, while the extractor pipeline (`claim_C3_cex`) happily emits
a template from a single document. -/
theorem claim_C3_need_two (docs : List DocData) (h : docs.length < 2) :
    analyze_documents docs =
      Except.error "Need at least 2 documents to find common content" := by
  match docs with
  | [] => rfl
  | [_] => rfl
  | _ :: _ :: _ =>
      exact absurd h (by rw [List.length_cons, List.length_cons]; omega)

/-- C3 witness: a run on a single extracted document aborts with the
insufficient-corpus error. -/
theorem claim_C3_witness :
    ([extractDoc PFMode.COMMON ⟨[], [], []⟩] : List DocData).length < 2 ∧
      analyze_documents [extractDoc PFMode.COMMON ⟨[], [], []⟩] =
        Except.error "Need at least 2 documents to find common content" :=
  ⟨by decide, claim_C3_need_two [extractDoc PFMode.COMMON ⟨[], [], []⟩] (by decide)⟩

/-- C3 counterexample: the extractor pipeline run on exactly one parsed
document produces a template specification instead of failing: it returns
`none` only for an empty corpus. -/
theorem claim_C3_cex :
    ([c3profile] : List DocProfile).length = 1 ∧
      (extract_template_run [c3profile]).isSome = true := by
  exact ⟨by decide, by decide⟩

/-- C4: a fingerprint n-gram is retained by the sequence miner iff its total
number of occurrences across all documents, counting repeats inside one
document separately, reaches `int(total_docs * boilerplate_threshold)` (and
is at least one).  This is the amended claim: the miner counts occurrences,
not documents containing the n-gram, which `claim_C4_cex` separates. -/
theorem claim_C4_retention (profiles : List DocProfile) (fx : List Fingerprint)
    (sizes : List Nat) (seq : List Fingerprint) :
    (∃ e ∈ detect_sequences profiles fx sizes, e.sequence = seq) ↔
      (1 ≤ ngramOccCount profiles fx sizes seq ∧
        truncQ (mulQ (profiles.length : ℚ) boilerplate_threshold) ≤
          (ngramOccCount profiles fx sizes seq : ℤ)) := by
  have hnodup : (keysOf (profiles.foldl (procSeqProfile fx sizes) [])).Nodup := by
    rw [seqCounts_eq]
    exact nodup_keys_foldBump _ _ (by simp [keysOf])
  rw [detect_sequences_def]
  constructor
  · rintro ⟨e, he, hseq⟩
    rw [mem_stableSort] at he
    rcases List.mem_map.mp he with ⟨kv, hkv, hmk⟩
    rw [List.mem_filter] at hkv
    obtain ⟨hmem, hcond⟩ := hkv
    have hkey : kv.1 = seq := by
      rw [← hseq, ← hmk]
      rfl
    subst hkey
    constructor
    · exact (mem_keys_counts profiles fx sizes kv.1).mp
        (List.mem_map.mpr ⟨kv, hmem, rfl⟩)
    · have hc : seqCountOf (profiles.foldl (procSeqProfile fx sizes) []) kv.1
          = kv.2.count := by
        unfold seqCountOf
        rw [lookupAssoc_eq_some_of_mem _ kv.1 kv.2 hnodup
          (by rw [Prod.mk.eta]; exact hmem)]
        rfl
      have hocc := seqCountOf_counts profiles fx sizes kv.1
      rw [hc] at hocc
      rw [← hocc]
      exact of_decide_eq_true hcond
  · rintro ⟨h1, h2⟩
    have hk : seq ∈ keysOf (profiles.foldl (procSeqProfile fx sizes) []) :=
      (mem_keys_counts profiles fx sizes seq).mpr h1
    obtain ⟨d, hl⟩ := Option.isSome_iff_exists.mp ((lookupAssoc_isSome_iff _ _).mpr hk)
    have hd : (seq, d) ∈ profiles.foldl (procSeqProfile fx sizes) [] :=
      mem_of_lookupAssoc_eq_some _ _ _ hl
    have hcnt : d.count = ngramOccCount profiles fx sizes seq := by
      have hx := seqCountOf_counts profiles fx sizes seq
      unfold seqCountOf at hx
      rw [hl] at hx
      exact hx
    refine ⟨mkSeqEntry profiles.length (seq, d), ?_, rfl⟩
    rw [mem_stableSort]
    refine List.mem_map.mpr ⟨(seq, d), List.mem_filter.mpr ⟨hd, ?_⟩, rfl⟩
    apply decide_eq_true
    show truncQ (mulQ (profiles.length : ℚ) boilerplate_threshold) ≤ (d.count : ℤ)
    rw [hcnt]
    exact h2

/-- C4 counterexample: among 3 documents, the bigram A, B occurs twice in
one document and nowhere else.  Only 1 of 3 documents contains it, below
the required `0.85` fraction, yet the miner retains it because the two
occurrences reach `int(3 * 0.85) = 2`. -/
theorem claim_C4_cex :
    (∃ e ∈ detect_sequences c4docs [c4fpA] ngram_sizes,
        e.sequence = [c4fpA, c4fpB]) ∧
      c4docs.countP (fun pr => hasNgram pr [c4fpA, c4fpB]) = 1 ∧
      ¬ (mulQ (c4docs.length : ℚ) boilerplate_threshold ≤
          (c4docs.countP (fun pr => hasNgram pr [c4fpA, c4fpB]) : ℚ)) := by
  exact ⟨by decide, by decide, by decide⟩

/-- C5: every paragraph of every document, including paragraphs whose text
is empty, contributes its fingerprint to the aggregated stats.  This is the
amended claim: `add_normalizations` fingerprints every paragraph and
`compute_fingerprint_counts` has no emptiness filter, which `claim_C5_cex`
exhibits on an empty paragraph. -/
theorem claim_C5_all_fingerprinted (profiles : List DocProfile) (pr : DocProfile)
    (p : NormPara) (hpr : pr ∈ profiles) (hp : p ∈ pr.paragraphs) :
    p.fingerprint ∈ keysOf (compute_fingerprint_counts profiles) :=
  (mem_keys_compute profiles p.fingerprint).mpr
    ⟨pr, hpr, List.mem_map.mpr ⟨p, hp, rfl⟩⟩

/-- C5 witness: the fingerprint of an ordinary paragraph appears in the
aggregated stats of its one-document corpus. -/
theorem claim_C5_witness :
    c5profile ∈ ([c5profile] : List DocProfile) ∧
      normalizePara c5para ∈ c5profile.paragraphs ∧
      (normalizePara c5para).fingerprint ∈
        keysOf (compute_fingerprint_counts [c5profile]) :=
  ⟨by decide, by decide,
    claim_C5_all_fingerprinted [c5profile] c5profile (normalizePara c5para)
      (by decide) (by decide)⟩

/-- C5 counterexample: a paragraph whose text is empty after trimming is
fingerprinted and counted: its fingerprint enters the stats with count 1
instead of being excluded from fingerprinting. -/
theorem claim_C5_cex :
    (normalizePara c5para).text = [] ∧
      (normalizePara c5para).fingerprint ∈
        keysOf (compute_fingerprint_counts [c5profile]) ∧
      countOf (compute_fingerprint_counts [c5profile])
        (normalizePara c5para).fingerprint = 1 := by
  exact ⟨by decide, by decide, by decide⟩

/-- C6: the aggregated occurrence count of a classified fingerprint counts
each document at most once (repeats inside one document are not double
counted), and the reported occurrence rate equals count divided by
total_documents exactly and lies in the closed interval from 0 to 1. -/
theorem claim_C6_rate (profiles : List DocProfile) (t : ℚ) (fp : Fingerprint)
    (e : ClsEntry)
    (h : (fp, e) ∈ (classify_paragraphs (compute_fingerprint_counts profiles)
          profiles.length t).fixed ∨
        (fp, e) ∈ (classify_paragraphs (compute_fingerprint_counts profiles)
          profiles.length t).variable_) :
    e.occurrence_count = profiles.countP (fun pr => decide (fp ∈ fpsOf pr)) ∧
      e.occurrence_rate = (e.occurrence_count : ℚ) / (profiles.length : ℚ) ∧
      0 ≤ e.occurrence_rate ∧ e.occurrence_rate ≤ 1 := by
  obtain ⟨d, hd, he⟩ := entry_of_mem_classify _ _ _ _ _ h
  have hnd := nodup_keys_compute profiles
  have hcnt : d.count = countOf (compute_fingerprint_counts profiles) fp :=
    (countOf_of_mem _ _ _ hnd hd).symm
  have hce : e.occurrence_count = d.count := by rw [he]; rfl
  have hrate : e.occurrence_rate = divNatQ d.count profiles.length := by rw [he]; rfl
  have hlen : 0 < profiles.length := by
    have hk : fp ∈ keysOf (compute_fingerprint_counts profiles) :=
      List.mem_map.mpr ⟨(fp, d), hd, rfl⟩
    rcases (mem_keys_compute profiles fp).mp hk with ⟨pr, hpr, _⟩
    exact List.length_pos.mpr (List.ne_nil_of_mem hpr)
  have hle : d.count ≤ profiles.length := by
    rw [hcnt]
    exact countOf_le_total profiles fp
  refine ⟨?_, ?_, ?_, ?_⟩
  · rw [hce, hcnt, countOf_compute]
  · rw [hrate, hce, divNatQ_eq]
  · rw [hrate, divNatQ_eq]
    positivity
  · rw [hrate, divNatQ_eq]
    rw [div_le_one (by exact_mod_cast hlen)]
    exact_mod_cast hle

/-- C6 witness: in a one-document corpus the single entry has count 1 and
rate 1. -/
theorem claim_C6_witness :
    (((normalizePara c6para).fingerprint, c6entry) ∈
        (classify_paragraphs (compute_fingerprint_counts [c6profile])
          ([c6profile] : List DocProfile).length boilerplate_threshold).fixed ∨
      ((normalizePara c6para).fingerprint, c6entry) ∈
        (classify_paragraphs (compute_fingerprint_counts [c6profile])
          ([c6profile] : List DocProfile).length boilerplate_threshold).variable_) ∧
      (c6entry.occurrence_count = ([c6profile] : List DocProfile).countP
          (fun pr => decide ((normalizePara c6para).fingerprint ∈ fpsOf pr)) ∧
        c6entry.occurrence_rate =
          (c6entry.occurrence_count : ℚ) / (([c6profile] : List DocProfile).length : ℚ) ∧
        0 ≤ c6entry.occurrence_rate ∧ c6entry.occurrence_rate ≤ 1) :=
  ⟨Or.inl (by decide),
    claim_C6_rate [c6profile] boilerplate_threshold (normalizePara c6para).fingerprint
      c6entry (Or.inl (by decide))⟩

/-- C7: for a fixed corpus, every fingerprint classified FIXED at threshold
t2 is also classified FIXED at any threshold t1 below t2: raising the
boilerplate threshold can only move fingerprints from FIXED to VARIABLE. -/
theorem claim_C7_monotone (stats : List (Fingerprint × FPData)) (total : Nat)
    (t1 t2 : ℚ) (fp : Fingerprint) (h12 : t1 ≤ t2)
    (h : fp ∈ keysOf (classify_paragraphs stats total t2).fixed) :
    fp ∈ keysOf (classify_paragraphs stats total t1).fixed := by
  rcases (mem_keys_classify_fixed stats total t2 fp).mp h with ⟨d, hd, hfix⟩
  exact (mem_keys_classify_fixed stats total t1 fp).mpr
    ⟨d, hd, isFixedEntry_mono (minCount_mono total h12) hfix⟩

/-- C7 witness: a fingerprint FIXED at threshold 0.85 stays FIXED at 0.8. -/
theorem claim_C7_witness :
    (mkRat 8 10 : ℚ) ≤ mkRat 85 100 ∧
      c7fp ∈ keysOf (classify_paragraphs c7stats 1 (mkRat 85 100)).fixed ∧
      c7fp ∈ keysOf (classify_paragraphs c7stats 1 (mkRat 8 10)).fixed :=
  ⟨by decide, by decide,
    claim_C7_monotone c7stats 1 (mkRat 8 10) (mkRat 85 100) c7fp (by decide) (by decide)⟩

/-- C8: the basic normalization layer is idempotent: applying it twice
yields the same string as applying it once. -/
theorem claim_C8_idempotent (t : Text) :
    normalize_basic (normalize_basic t) = normalize_basic t :=
  normalize_basic_fixed (basicClean_normalize_basic t)

set_option maxRecDepth 2000000 in
set_option maxHeartbeats 2000000 in
/-- C9: for every canonical vocabulary entry, the Levenshtein similarity of
its basic-normalized text with itself is 1, the similarity threshold is at
most 1, and the first-match scan over the vocabulary finds some anchor for
it.  This is the amended claim: the scan is first-match-wins over the
vocabulary order, so the matched entry need not be the entry itself, which
`claim_C9_cex` exhibits on the entry "Diagnose". -/
theorem claim_C9_first_match (k : String) (h : k ∈ KNOWN_ANCHORS) :
    levenshtein_similarity (normalize_basic (strCodes k))
        (normalize_basic (strCodes k)) = 1 ∧
      anchor_similarity_threshold ≤ 1 ∧
      (anchorFirstMatch (candNorm (strCodes k))).isSome = true := by
  have key : ∀ k2 : String, k2 ∈ KNOWN_ANCHORS →
      anchor_similarity_threshold ≤
        levenshtein_similarity (candNorm (strCodes k)) (normalize_basic (strCodes k2)) →
      (anchorFirstMatch (candNorm (strCodes k))).isSome = true := by
    intro k2 hk2 hsim
    unfold anchorFirstMatch
    exact List.find?_isSome.mpr ⟨k2, hk2, decide_eq_true hsim⟩
  refine ⟨?_, by decide, key k h ?_⟩
  · fin_cases h <;> decide
  · fin_cases h <;> decide

set_option maxRecDepth 2000000 in
/-- C9 witness: the vocabulary entry "Anamnese" has self-similarity 1 and is
matched to some anchor. -/
theorem claim_C9_witness :
    "Anamnese" ∈ KNOWN_ANCHORS ∧
      (levenshtein_similarity (normalize_basic (strCodes "Anamnese"))
          (normalize_basic (strCodes "Anamnese")) = 1 ∧
        anchor_similarity_threshold ≤ 1 ∧
        (anchorFirstMatch (candNorm (strCodes "Anamnese"))).isSome = true) :=
  ⟨by decide, claim_C9_first_match "Anamnese" (by decide)⟩

set_option maxRecDepth 2000000 in
set_option maxHeartbeats 1000000 in
/-- C9 counterexample: a candidate whose text exactly equals the vocabulary
entry "Diagnose" is matched to "Diagnosen" instead, because "Diagnosen"
precedes "Diagnose" in the vocabulary and their mutual similarity 8 over 9
already exceeds the threshold 0.88: exact equality does not win. -/
theorem claim_C9_cex :
    "Diagnose" ∈ KNOWN_ANCHORS ∧
      anchorFirstMatch (candNorm (strCodes "Diagnose")) = some "Diagnosen" ∧
      "Diagnosen" ≠ "Diagnose" := by
  exact ⟨by decide, by decide, by decide⟩

/-- C10: classification is a partition: every fingerprint of the aggregated
stats lands in exactly one of the fixed or variable maps (membership in one
is equivalent to absence from the other), and the entry built for it carries
the count, examples and styles of the stats unchanged. -/
theorem claim_C10_partition (profiles : List DocProfile) (total : Nat) (t : ℚ)
    (fp : Fingerprint)
    (h : fp ∈ keysOf (compute_fingerprint_counts profiles)) :
    (fp ∈ keysOf (classify_paragraphs (compute_fingerprint_counts profiles)
          total t).fixed ↔
        fp ∉ keysOf (classify_paragraphs (compute_fingerprint_counts profiles)
          total t).variable_) ∧
      ∀ d, (fp, d) ∈ compute_fingerprint_counts profiles →
        ∃ e, ((fp, e) ∈ (classify_paragraphs (compute_fingerprint_counts profiles)
                total t).fixed ∨
              (fp, e) ∈ (classify_paragraphs (compute_fingerprint_counts profiles)
                total t).variable_) ∧
          e.occurrence_count = d.count ∧ e.examples = d.examples ∧
          e.styles = d.styles := by
  obtain ⟨d0, hd0⟩ := exists_data_of_mem_keys _ _ h
  have hnd := nodup_keys_compute profiles
  constructor
  · constructor
    · intro hf hv
      rcases (mem_keys_classify_fixed _ _ _ _).mp hf with ⟨d1, hd1, h1⟩
      rcases (mem_keys_classify_variable _ _ _ _).mp hv with ⟨d2, hd2, h2⟩
      have hdd : d1 = d2 := assoc_value_unique _ _ _ _ hnd hd1 hd2
      rw [hdd, h2] at h1
      exact Bool.false_ne_true h1
    · intro hv
      by_cases hfix : isFixedEntry d0 (truncQ (mulQ (total : ℚ) t)) = true
      · exact (mem_keys_classify_fixed _ _ _ _).mpr ⟨d0, hd0, hfix⟩
      · exact absurd ((mem_keys_classify_variable _ _ _ _).mpr
          ⟨d0, hd0, Bool.eq_false_iff.mpr hfix⟩) hv
  · intro d hd
    exact ⟨mkClsEntry fp d total, mem_classify_of_mem _ _ _ _ _ hd, rfl, rfl, rfl⟩

/-- C10 witness: the partition property at a concrete one-document corpus. -/
theorem claim_C10_witness :
    c10fp ∈ keysOf (compute_fingerprint_counts [c10profile]) ∧
      ((c10fp ∈ keysOf (classify_paragraphs (compute_fingerprint_counts [c10profile])
            1 boilerplate_threshold).fixed ↔
          c10fp ∉ keysOf (classify_paragraphs (compute_fingerprint_counts [c10profile])
            1 boilerplate_threshold).variable_) ∧
        ∀ d, (c10fp, d) ∈ compute_fingerprint_counts [c10profile] →
          ∃ e, ((c10fp, e) ∈ (classify_paragraphs
                  (compute_fingerprint_counts [c10profile]) 1 boilerplate_threshold).fixed ∨
                (c10fp, e) ∈ (classify_paragraphs
                  (compute_fingerprint_counts [c10profile]) 1 boilerplate_threshold).variable_) ∧
            e.occurrence_count = d.count ∧ e.examples = d.examples ∧
            e.styles = d.styles) :=
  ⟨by decide, claim_C10_partition [c10profile] 1 boilerplate_threshold c10fp (by decide)⟩

end GutachtenAssist
